import Mathlib

/-!
# Mel filterbank coefficients (`src/spectral/filterbank_mel.c`)

A shallow embedding of `aubio_filterbank_set_mel_coeffs` over exact rational
arithmetic (`smpl_t` is read as `ℚ`), followed by theorems about the anchor
sequence, the filter edges, the triangle heights and the weight matrix.

Conventions of the embedding:
* an `fvec_t` is a `channels × length` table, `s->data[c][i]` is `s.get c i`
  and the assignment `s->data[c][i] = v` is `s.put c i v`;
* `uint_t` values are natural numbers; `win_s - 1` and the `bin++` that follow
  the loops are taken modulo `2^32`;
* a counting loop `for (i = 0; i < n; i++)` is `forUpTo body n`; a loop
  `for (; bin < last; bin++)` with a `break` recurses on the number
  `last - bin` of iterations that remain;
* `get` and `put` do not fail: a read outside a buffer gives 0 and a write outside it is
  dropped. The definitions with the suffix `_chk` run the same code with every access and
  every divisor checked (`none` on a failure); they agree with the unchecked ones wherever
  the accesses are in range, which is the case for at most 40 rows and at least one bin;
* the definitions with the suffix `_assign` are the variant of the function in which the
  `+=` of the negative slope loop is an `=`.
-/

namespace Aubio

/-! ## Vectors -/

/-- The `fvec_t` buffer of the library: `channels` rows of `length` samples. -/
structure fvec_t where
  length : Nat
  channels : Nat
  data : List (List ℚ)

/-- Modelled from the spec: `new_fvec` (fvec.c is not part of the sources) allocates
a scratch buffer of `channels × length` samples; it is taken zero-filled. -/
def new_fvec (length channels : Nat) : fvec_t :=
  { length := length, channels := channels,
    data := List.replicate channels (List.replicate length 0) }

/-- Modelled from the spec: `fvec_zeros` (fvec.c is not part of the sources) is the
"zeroing of all filters": every entry of the `channels × length` table becomes 0. -/
def fvec_zeros (s : fvec_t) : fvec_t :=
  { s with data := List.replicate s.channels (List.replicate s.length 0) }

/-- The read `s->data[c][i]`. -/
def fvec_t.get (s : fvec_t) (c i : Nat) : ℚ :=
  (s.data.getD c []).getD i 0

/-- The assignment `s->data[c][i] = v`. -/
def fvec_t.put (s : fvec_t) (c i : Nat) (v : ℚ) : fvec_t :=
  { s with data := s.data.set c ((s.data.getD c []).set i v) }

/-- The table really has `channels` rows of `length` samples. -/
def fvec_t.shaped (s : fvec_t) : Prop :=
  s.data.length = s.channels ∧ ∀ c, c < s.channels → (s.data.getD c []).length = s.length

/-! ## Machine arithmetic and loops -/

/-- Subtraction of `uint_t` values, modulo `2^32`. -/
def u32_sub (a b : Nat) : Nat :=
  (a + (4294967296 - b % 4294967296)) % 4294967296

/-- Addition of `uint_t` values, modulo `2^32`. -/
def u32_add (a b : Nat) : Nat :=
  (a + b) % 4294967296

/-- The counting loop `for (i = 0; i < n; i++) s = body i s`. -/
def forUpTo {σ : Type} (body : Nat → σ → σ) : Nat → σ → σ
  | 0, s => s
  | n + 1, s => body n (forUpTo body n s)

/-- Modelled from the spec: the `POW` macro (aubio_priv.h is not part of the sources)
is exponentiation, the `1.0711703^(k+1)` of the logarithmic segment. -/
def POW (x : ℚ) (n : Nat) : ℚ :=
  x ^ n

/-- Modelled from the spec: `aubio_bintofreq` (mathutils.c is not part of the sources)
is the fixed mapping from sample rate and window size to the Hz value of a bin,
`binFreq[b] = sampleRate * b / numBins`. -/
def aubio_bintofreq (bin samplerate fftsize : ℚ) : ℚ :=
  samplerate * bin / fftsize

/-! ## Malcolm Slaney parameters -/

def lowestFrequency : ℚ := 133.3333
def linearSpacing : ℚ := 66.66666666
def logSpacing : ℚ := 1.0711703

def linearFilters : Nat := 13
def logFilters : Nat := 27
def allFilters : Nat := linearFilters + logFilters

/-- The test of the warning `not enough Mel filters`: `allFilters > n_filters`. -/
def not_enough_filters (fb : fvec_t) : Bool :=
  decide (allFilters > fb.channels)

/-! ## Filter frequencies -/

/-- First step: `freqs` after the loop filling the linear filter frequencies. -/
def freqs_linear : fvec_t :=
  forUpTo (fun fn freqs => freqs.put 0 fn (lowestFrequency + fn * linearSpacing))
    linearFilters (new_fvec (allFilters + 2) 1)

/-- The value `freqs->data[0][fn - 1]` read when the first loop has ended (`fn` is
then `linearFilters`). -/
def lastlinearCF : ℚ :=
  freqs_linear.get 0 (linearFilters - 1)

/-- Second step: `freqs` after the loop filling the log filter frequencies. -/
def freqs : fvec_t :=
  forUpTo (fun fn freqs => freqs.put 0 (fn + linearFilters) (lastlinearCF * POW logSpacing (fn + 1)))
    (logFilters + 2) freqs_linear

/-- The three buffers `lower_freqs`, `center_freqs`, `upper_freqs`. -/
structure edges_t where
  lower_freqs : fvec_t
  center_freqs : fvec_t
  upper_freqs : fvec_t

/-- The loop "fill up the lower/center/upper". -/
def edges : edges_t :=
  forUpTo
    (fun fn e =>
      { lower_freqs := e.lower_freqs.put 0 fn (freqs.get 0 fn),
        center_freqs := e.center_freqs.put 0 fn (freqs.get 0 (fn + 1)),
        upper_freqs := e.upper_freqs.put 0 fn (freqs.get 0 (fn + 2)) })
    allFilters
    { lower_freqs := new_fvec allFilters 1,
      center_freqs := new_fvec allFilters 1,
      upper_freqs := new_fvec allFilters 1 }

def lower_freqs : fvec_t := edges.lower_freqs
def center_freqs : fvec_t := edges.center_freqs
def upper_freqs : fvec_t := edges.upper_freqs

/-- The loop "compute triangle heights so that each triangle has unit area". -/
def triangle_heights : fvec_t :=
  forUpTo
    (fun fn h => h.put 0 fn (2 / (upper_freqs.get 0 fn - lower_freqs.get 0 fn)))
    allFilters (new_fvec allFilters 1)

/-- The loop filling the `fft_freqs` lookup table; the mapping from a bin to its
frequency (`aubio_bintofreq` in the source) is the parameter `bintofreq`. -/
def fft_freqs (bintofreq : ℚ → ℚ → ℚ → ℚ) (samplerate : ℚ) (win_s : Nat) : fvec_t :=
  forUpTo (fun bin t => t.put 0 bin (bintofreq bin samplerate win_s))
    win_s (new_fvec win_s 1)

/-! ## Building one filter -/

/-- The loop "skip first elements", entered with `rem = (win_s - 1) - bin`; the result
is the value of `bin` when the loop is left (by `break` or by its condition). -/
def skip_first (fft : fvec_t) (fn : Nat) : Nat → Nat → Nat
  | 0, bin => bin
  | rem + 1, bin =>
    if fft.get 0 bin ≤ lower_freqs.get 0 fn ∧ fft.get 0 (bin + 1) > lower_freqs.get 0 fn then
      bin
    else
      skip_first fft fn rem (bin + 1)

/-- The loop "compute coefficients in positive slope", entered with
`rem = (win_s - 1) - bin`; the result is the table and the value of `bin` when the
loop is left. -/
def positive_slope (fft : fvec_t) (fn : Nat) (riseInc : ℚ) :
    Nat → Nat → fvec_t → fvec_t × Nat
  | 0, bin, filters => (filters, bin)
  | rem + 1, bin, filters =>
    let written := filters.put fn bin ((fft.get 0 bin - lower_freqs.get 0 fn) * riseInc)
    if fft.get 0 (bin + 1) > center_freqs.get 0 fn then
      (written, bin)
    else
      positive_slope fft fn riseInc rem (bin + 1) written

/-- The loop "compute coefficents in negative slope", entered with
`rem = (win_s - 1) - bin`; the assignment is the `+=` of the source. -/
def negative_slope (fft : fvec_t) (fn : Nat) (downInc : ℚ) :
    Nat → Nat → fvec_t → fvec_t
  | 0, _, filters => filters
  | rem + 1, bin, filters =>
    let written :=
      filters.put fn bin (filters.get fn bin + (upper_freqs.get 0 fn - fft.get 0 bin) * downInc)
    if fft.get 0 (bin + 1) > upper_freqs.get 0 fn then
      written
    else
      negative_slope fft fn downInc rem (bin + 1) written

/-- The value of `bin` after "skip first elements" and the `bin++` that follows it. -/
def first_bin (fft : fvec_t) (win_s fn : Nat) : Nat :=
  u32_add (skip_first fft fn (u32_sub win_s 1 - 0) 0) 1

/-- The positive slope step size. -/
def riseInc (fn : Nat) : ℚ :=
  triangle_heights.get 0 fn / (center_freqs.get 0 fn - lower_freqs.get 0 fn)

/-- The negative slope step size. -/
def downInc (fn : Nat) : ℚ :=
  triangle_heights.get 0 fn / (upper_freqs.get 0 fn - center_freqs.get 0 fn)

/-- The table and the value of `bin` when the positive slope loop of filter `fn` is left. -/
def rise_part (fft : fvec_t) (win_s fn : Nat) (filters : fvec_t) : fvec_t × Nat :=
  positive_slope fft fn (riseInc fn) (u32_sub win_s 1 - first_bin fft win_s fn)
    (first_bin fft win_s fn) filters

/-- The body of the loop "building each filter table" for the filter `fn`: skip the first
elements, `bin++`, the positive slope, `bin++`, the negative slope. -/
def build_filter (fft : fvec_t) (win_s fn : Nat) (filters : fvec_t) : fvec_t :=
  negative_slope fft fn (downInc fn)
    (u32_sub win_s 1 - u32_add (rise_part fft win_s fn filters).2 1)
    (u32_add (rise_part fft win_s fn filters).2 1)
    (rise_part fft win_s fn filters).1

/-- The function `aubio_filterbank_set_mel_coeffs`: `fb` is the coefficient table of
the filterbank (`aubio_filterbank_get_coeffs (fb)`), the result is that table when the
function returns. The arguments `freq_min` and `freq_max` are not used by the body. -/
def aubio_filterbank_set_mel_coeffs (bintofreq : ℚ → ℚ → ℚ → ℚ) (fb : fvec_t)
    (samplerate _freq_min _freq_max : ℚ) : fvec_t :=
  let n_filters := fb.channels
  let win_s := fb.length
  forUpTo (fun fn filters => build_filter (fft_freqs bintofreq samplerate win_s) win_s fn filters)
    n_filters (fvec_zeros fb)

/-! ## The variant with `=` in the negative slope -/

/-- The negative slope loop with the `+=` of the source replaced by `=`; everything else
is as in `negative_slope`. -/
def negative_slope_assign (fft : fvec_t) (fn : Nat) (downInc : ℚ) :
    Nat → Nat → fvec_t → fvec_t
  | 0, _, filters => filters
  | rem + 1, bin, filters =>
    let written := filters.put fn bin ((upper_freqs.get 0 fn - fft.get 0 bin) * downInc)
    if fft.get 0 (bin + 1) > upper_freqs.get 0 fn then
      written
    else
      negative_slope_assign fft fn downInc rem (bin + 1) written

/-- The body of the loop "building each filter table" with `=` in the negative slope. -/
def build_filter_assign (fft : fvec_t) (win_s fn : Nat) (filters : fvec_t) : fvec_t :=
  negative_slope_assign fft fn (downInc fn)
    (u32_sub win_s 1 - u32_add (rise_part fft win_s fn filters).2 1)
    (u32_add (rise_part fft win_s fn filters).2 1)
    (rise_part fft win_s fn filters).1

/-- The function `aubio_filterbank_set_mel_coeffs` with `=` in place of the `+=` of the
negative slope. -/
def set_mel_coeffs_assign (bintofreq : ℚ → ℚ → ℚ → ℚ) (fb : fvec_t)
    (samplerate _freq_min _freq_max : ℚ) : fvec_t :=
  let n_filters := fb.channels
  let win_s := fb.length
  forUpTo
    (fun fn filters => build_filter_assign (fft_freqs bintofreq samplerate win_s) win_s fn filters)
    n_filters (fvec_zeros fb)

/-! ## Rows -/

/-- Two tables of the same row length that both have the row `fn`, with equal contents. -/
def same_row (fn : Nat) (F G : fvec_t) : Prop :=
  F.shaped ∧ G.shaped ∧ F.length = G.length ∧ fn < F.channels ∧ fn < G.channels ∧
    ∀ b, F.get fn b = G.get fn b

/-! ## Checked execution

The same function once more, with every array access and every division checked: a read or
a write outside the storage of a buffer, or a division by 0, makes the result `none`. -/

/-- The read `s->data[c][i]`, `none` when the buffer has no such cell. -/
def fvec_t.get_chk (s : fvec_t) (c i : Nat) : Option ℚ :=
  if c < s.data.length ∧ i < (s.data.getD c []).length then some (s.get c i) else none

/-- The assignment `s->data[c][i] = v`, `none` when the buffer has no such cell. -/
def fvec_t.put_chk (s : fvec_t) (c i : Nat) (v : ℚ) : Option fvec_t :=
  if c < s.data.length ∧ i < (s.data.getD c []).length then some (s.put c i v) else none

/-- The quotient `a / b`, `none` when the divisor is 0. -/
def div_chk (a b : ℚ) : Option ℚ :=
  if b = 0 then none else some (a / b)

/-- The counting loop `for (i = 0; i < n; i++)` over a body that can fail. -/
def forUpTo_chk {σ : Type} (body : Nat → σ → Option σ) : Nat → σ → Option σ
  | 0, s => some s
  | n + 1, s => (forUpTo_chk body n s).bind (body n)

/-- Checked: the anchor buffer `freqs` after the linear and the log loop. -/
def freqs_chk : Option fvec_t :=
  (forUpTo_chk (fun fn freqs => freqs.put_chk 0 fn (lowestFrequency + fn * linearSpacing))
    linearFilters (new_fvec (allFilters + 2) 1)).bind fun freqs =>
  (freqs.get_chk 0 (linearFilters - 1)).bind fun lastlinearCF =>
  forUpTo_chk
    (fun fn freqs =>
      freqs.put_chk 0 (fn + linearFilters) (lastlinearCF * POW logSpacing (fn + 1)))
    (logFilters + 2) freqs

/-- Checked: the loop "fill up the lower/center/upper". -/
def edges_chk (freqs : fvec_t) : Option edges_t :=
  forUpTo_chk
    (fun fn e =>
      (freqs.get_chk 0 fn).bind fun lo =>
      (e.lower_freqs.put_chk 0 fn lo).bind fun lower =>
      (freqs.get_chk 0 (fn + 1)).bind fun ce =>
      (e.center_freqs.put_chk 0 fn ce).bind fun center =>
      (freqs.get_chk 0 (fn + 2)).bind fun up =>
      (e.upper_freqs.put_chk 0 fn up).bind fun upper =>
      some { lower_freqs := lower, center_freqs := center, upper_freqs := upper })
    allFilters
    { lower_freqs := new_fvec allFilters 1,
      center_freqs := new_fvec allFilters 1,
      upper_freqs := new_fvec allFilters 1 }

/-- Checked: the loop "compute triangle heights". -/
def triangle_heights_chk (e : edges_t) : Option fvec_t :=
  forUpTo_chk
    (fun fn h =>
      (e.upper_freqs.get_chk 0 fn).bind fun up =>
      (e.lower_freqs.get_chk 0 fn).bind fun lo =>
      (div_chk 2 (up - lo)).bind fun height =>
      h.put_chk 0 fn height)
    allFilters (new_fvec allFilters 1)

/-- Checked: the loop filling the `fft_freqs` lookup table. -/
def fft_freqs_chk (bintofreq : ℚ → ℚ → ℚ → ℚ) (samplerate : ℚ) (win_s : Nat) :
    Option fvec_t :=
  forUpTo_chk (fun bin t => t.put_chk 0 bin (bintofreq bin samplerate win_s))
    win_s (new_fvec win_s 1)

/-- Checked: the loop "skip first elements"; the second comparison of the `&&` is only
evaluated when the first one holds. -/
def skip_first_chk (fft lower : fvec_t) (fn : Nat) : Nat → Nat → Option Nat
  | 0, bin => some bin
  | rem + 1, bin =>
    (fft.get_chk 0 bin).bind fun f0 =>
    (lower.get_chk 0 fn).bind fun lo =>
    if f0 ≤ lo then
      (fft.get_chk 0 (bin + 1)).bind fun f1 =>
      (lower.get_chk 0 fn).bind fun lo1 =>
      if f1 > lo1 then some bin else skip_first_chk fft lower fn rem (bin + 1)
    else
      skip_first_chk fft lower fn rem (bin + 1)

/-- Checked: the loop "compute coefficients in positive slope". -/
def positive_slope_chk (fft lower center : fvec_t) (fn : Nat) (riseInc : ℚ) :
    Nat → Nat → fvec_t → Option (fvec_t × Nat)
  | 0, bin, filters => some (filters, bin)
  | rem + 1, bin, filters =>
    (fft.get_chk 0 bin).bind fun f0 =>
    (lower.get_chk 0 fn).bind fun lo =>
    (filters.put_chk fn bin ((f0 - lo) * riseInc)).bind fun written =>
    (fft.get_chk 0 (bin + 1)).bind fun f1 =>
    (center.get_chk 0 fn).bind fun ce =>
    if f1 > ce then some (written, bin)
    else positive_slope_chk fft lower center fn riseInc rem (bin + 1) written

/-- Checked: the loop "compute coefficents in negative slope". -/
def negative_slope_chk (fft upper : fvec_t) (fn : Nat) (downInc : ℚ) :
    Nat → Nat → fvec_t → Option fvec_t
  | 0, _, filters => some filters
  | rem + 1, bin, filters =>
    (filters.get_chk fn bin).bind fun old =>
    (upper.get_chk 0 fn).bind fun up =>
    (fft.get_chk 0 bin).bind fun f0 =>
    (filters.put_chk fn bin (old + (up - f0) * downInc)).bind fun written =>
    (fft.get_chk 0 (bin + 1)).bind fun f1 =>
    (upper.get_chk 0 fn).bind fun up1 =>
    if f1 > up1 then some written
    else negative_slope_chk fft upper fn downInc rem (bin + 1) written

/-- Checked: the body of the loop "building each filter table" for the filter `fn`. -/
def build_filter_chk (fft : fvec_t) (e : edges_t) (heights : fvec_t) (win_s fn : Nat)
    (filters : fvec_t) : Option fvec_t :=
  (skip_first_chk fft e.lower_freqs fn (u32_sub win_s 1 - 0) 0).bind fun bin =>
  (heights.get_chk 0 fn).bind fun h =>
  (e.center_freqs.get_chk 0 fn).bind fun ce =>
  (e.lower_freqs.get_chk 0 fn).bind fun lo =>
  (div_chk h (ce - lo)).bind fun riseInc =>
  (positive_slope_chk fft e.lower_freqs e.center_freqs fn riseInc
    (u32_sub win_s 1 - u32_add bin 1) (u32_add bin 1) filters).bind fun rise =>
  (heights.get_chk 0 fn).bind fun h2 =>
  (e.upper_freqs.get_chk 0 fn).bind fun up =>
  (e.center_freqs.get_chk 0 fn).bind fun ce2 =>
  (div_chk h2 (up - ce2)).bind fun downInc =>
  negative_slope_chk fft e.upper_freqs fn downInc
    (u32_sub win_s 1 - u32_add rise.2 1) (u32_add rise.2 1) rise.1

/-- Checked: the function `aubio_filterbank_set_mel_coeffs`; `none` when some access is out
of range or some divisor is 0. -/
def aubio_filterbank_set_mel_coeffs_chk (bintofreq : ℚ → ℚ → ℚ → ℚ) (fb : fvec_t)
    (samplerate _freq_min _freq_max : ℚ) : Option fvec_t :=
  freqs_chk.bind fun freqs =>
  (edges_chk freqs).bind fun e =>
  (triangle_heights_chk e).bind fun heights =>
  (fft_freqs_chk bintofreq samplerate fb.length).bind fun fft =>
  forUpTo_chk (fun fn filters => build_filter_chk fft e heights fb.length fn filters)
    fb.channels (fvec_zeros fb)

/-! ## Reads and writes -/

theorem list_getD_set {α : Type} (l : List α) (i j : Nat) (v d : α) :
    (l.set i v).getD j d = if j = i ∧ i < l.length then v else l.getD j d := by
  simp only [List.getD_eq_getElem?_getD, List.getElem?_set]
  by_cases h : i = j
  · subst h
    by_cases hl : i < l.length
    · simp [hl]
    · simp [hl, List.getElem?_eq_none (not_lt.mp hl)]
  · have h' : ¬ j = i := fun e => h e.symm
    simp [h, h']

theorem get_put (s : fvec_t) (c i c' i' : Nat) (v : ℚ) :
    (s.put c i v).get c' i' =
      if c' = c ∧ i' = i ∧ c < s.data.length ∧ i < (s.data.getD c []).length then v
      else s.get c' i' := by
  unfold fvec_t.get fvec_t.put
  simp only [list_getD_set]
  by_cases hc : c' = c
  · subst hc
    by_cases hlen : c' < s.data.length
    · rw [if_pos ⟨rfl, hlen⟩, list_getD_set]
      by_cases hi : i' = i
      · by_cases hil : i < (s.data.getD c' []).length
        · rw [if_pos ⟨hi, hil⟩, if_pos ⟨rfl, hi, hlen, hil⟩]
        · rw [if_neg (fun h => hil h.2), if_neg (fun h => hil h.2.2.2)]
      · rw [if_neg (fun h => hi h.1), if_neg (fun h => hi h.2.1)]
    · rw [if_neg (fun h => hlen h.2), if_neg (fun h => hlen h.2.2.1)]
  · rw [if_neg (fun h => hc h.1), if_neg (fun h => hc h.1)]

theorem put_length (s : fvec_t) (c i : Nat) (v : ℚ) : (s.put c i v).length = s.length := rfl

theorem put_channels (s : fvec_t) (c i : Nat) (v : ℚ) : (s.put c i v).channels = s.channels := rfl

theorem put_shaped (s : fvec_t) (c i : Nat) (v : ℚ) (h : s.shaped) : (s.put c i v).shaped := by
  obtain ⟨h1, h2⟩ := h
  refine ⟨by simp [fvec_t.put, h1], ?_⟩
  intro c' hc'
  have := h2 c' hc'
  simp only [fvec_t.put, list_getD_set]
  split_ifs with hh
  · obtain ⟨rfl, _⟩ := hh
    simpa using this
  · exact this

theorem new_fvec_shaped (length channels : Nat) : (new_fvec length channels).shaped := by
  refine ⟨by simp [new_fvec], ?_⟩
  intro c hc
  have hc' : c < channels := hc
  simp only [new_fvec, List.getD_eq_getElem?_getD, List.getElem?_replicate, if_pos hc',
    Option.getD_some, List.length_replicate]

theorem fvec_zeros_shaped (s : fvec_t) : (fvec_zeros s).shaped := by
  refine ⟨by simp [fvec_zeros], ?_⟩
  intro c hc
  have hc' : c < s.channels := hc
  simp only [fvec_zeros, List.getD_eq_getElem?_getD, List.getElem?_replicate, if_pos hc',
    Option.getD_some, List.length_replicate]

theorem new_fvec_get (length channels c i : Nat) : (new_fvec length channels).get c i = 0 := by
  simp only [new_fvec, fvec_t.get, List.getD_eq_getElem?_getD, List.getElem?_replicate]
  by_cases hc : c < channels
  · by_cases hi : i < length
    · simp [hc, hi]
    · simp [hc, hi]
  · simp [hc]

theorem fvec_zeros_get (s : fvec_t) (c i : Nat) : (fvec_zeros s).get c i = 0 := by
  have := new_fvec_get s.length s.channels c i
  simpa [new_fvec, fvec_zeros, fvec_t.get] using this

/-- A write inside a table of the right shape: the written cell holds the value, every
other cell is unchanged. -/
theorem get_put_shaped (s : fvec_t) (hs : s.shaped) (c i c' i' : Nat) (v : ℚ)
    (hc : c < s.channels) (hi : i < s.length) :
    (s.put c i v).get c' i' = if c' = c ∧ i' = i then v else s.get c' i' := by
  rw [get_put]
  have h1 : c < s.data.length := by rw [hs.1]; exact hc
  have h2 : i < (s.data.getD c []).length := by rw [hs.2 c hc]; exact hi
  by_cases h : c' = c ∧ i' = i
  · rw [if_pos ⟨h.1, h.2, h1, h2⟩, if_pos h]
  · rw [if_neg (fun hh => h ⟨hh.1, hh.2.1⟩), if_neg h]

/-- A write never touches another row. -/
theorem get_put_other (s : fvec_t) (c i c' i' : Nat) (v : ℚ) (h : c' ≠ c) :
    (s.put c i v).get c' i' = s.get c' i' := by
  rw [get_put]; simp [h]

/-! ## Counting loops that fill a buffer -/

theorem forUpTo_succ {σ : Type} (body : Nat → σ → σ) (n : Nat) (s : σ) :
    forUpTo body (n + 1) s = body n (forUpTo body n s) := rfl

theorem fill_shaped (f : Nat → ℚ) (off n : Nat) (v : fvec_t) (hv : v.shaped) :
    (forUpTo (fun i t => t.put 0 (i + off) (f i)) n v).shaped ∧
    (forUpTo (fun i t => t.put 0 (i + off) (f i)) n v).length = v.length ∧
    (forUpTo (fun i t => t.put 0 (i + off) (f i)) n v).channels = v.channels := by
  induction n with
  | zero => exact ⟨hv, rfl, rfl⟩
  | succ n ih =>
    obtain ⟨h1, h2, h3⟩ := ih
    exact ⟨put_shaped _ _ _ _ h1, h2, h3⟩

/-- The loop `for (i = 0; i < n; i++) v->data[0][i + off] = f i` inside a buffer that is
long enough: cell `k` holds `f (k - off)` when `off <= k < off + n`, its old value
otherwise. -/
theorem fill_get (f : Nat → ℚ) (off n : Nat) (v : fvec_t) (hv : v.shaped)
    (hc : 0 < v.channels) (hn : off + n ≤ v.length) (k : Nat) :
    (forUpTo (fun i t => t.put 0 (i + off) (f i)) n v).get 0 k =
      if off ≤ k ∧ k < off + n then f (k - off) else v.get 0 k := by
  induction n with
  | zero =>
    rw [if_neg (by omega)]
    rfl
  | succ n ih =>
    have ih' := ih (by omega)
    obtain ⟨h1, h2, h3⟩ := fill_shaped f off n v hv
    show ((forUpTo (fun i t => t.put 0 (i + off) (f i)) n v).put 0 (n + off) (f n)).get 0 k = _
    rw [get_put_shaped _ h1 _ _ _ _ _ (by omega) (by omega), ih']
    by_cases hk : k = n + off
    · subst hk
      rw [if_pos ⟨rfl, rfl⟩, if_pos (by omega)]
      congr 1
      omega
    · rw [if_neg (fun h => hk h.2)]
      by_cases h : off ≤ k ∧ k < off + n
      · rw [if_pos h, if_pos (by omega)]
      · rw [if_neg h, if_neg (by omega)]

/-! ## The anchor sequence in closed form -/

theorem freqs_linear_shaped :
    freqs_linear.shaped ∧ freqs_linear.length = 42 ∧ freqs_linear.channels = 1 :=
  fill_shaped (fun fn => lowestFrequency + fn * linearSpacing) 0 linearFilters
    (new_fvec (allFilters + 2) 1) (new_fvec_shaped _ _)

theorem freqs_linear_get (k : Nat) :
    freqs_linear.get 0 k = if k < 13 then lowestFrequency + k * linearSpacing else 0 := by
  have h := fill_get (fun fn => lowestFrequency + fn * linearSpacing) 0 linearFilters
    (new_fvec (allFilters + 2) 1) (new_fvec_shaped _ _) (by decide) (by decide) k
  have e : freqs_linear.get 0 k = _ := h
  rw [e, new_fvec_get]
  by_cases hk : k < 13
  · rw [if_pos hk, if_pos ⟨Nat.zero_le _, by simpa [linearFilters] using hk⟩]
    rfl
  · rw [if_neg hk, if_neg (fun hh => hk (by simpa [linearFilters] using hh.2))]

theorem freqs_shaped : freqs.shaped ∧ freqs.length = 42 ∧ freqs.channels = 1 := by
  obtain ⟨h1, h2, h3⟩ := fill_shaped (fun fn => lastlinearCF * POW logSpacing (fn + 1))
    linearFilters (logFilters + 2) freqs_linear freqs_linear_shaped.1
  exact ⟨h1, h2.trans freqs_linear_shaped.2.1, h3.trans freqs_linear_shaped.2.2⟩

theorem lastlinearCF_eq : lastlinearCF = lowestFrequency + 12 * linearSpacing := by
  unfold lastlinearCF
  rw [freqs_linear_get]
  norm_num [linearFilters]

theorem freqs_get (k : Nat) :
    freqs.get 0 k =
      if k < 13 then lowestFrequency + k * linearSpacing
      else if k < 42 then lastlinearCF * logSpacing ^ (k - 12)
      else 0 := by
  have h := fill_get (fun fn => lastlinearCF * POW logSpacing (fn + 1)) linearFilters
    (logFilters + 2) freqs_linear freqs_linear_shaped.1
    (by rw [freqs_linear_shaped.2.2]; decide) (by rw [freqs_linear_shaped.2.1]; decide) k
  have e : freqs.get 0 k = _ := h
  have hL : linearFilters = 13 := rfl
  have hG : logFilters = 27 := rfl
  rw [e, freqs_linear_get, hL, hG]
  by_cases h13 : k < 13
  · rw [if_neg (fun hh => by omega), if_pos h13, if_pos h13]
  · rw [if_neg h13, if_neg h13]
    by_cases h42 : k < 42
    · rw [if_pos ⟨by omega, by omega⟩, if_pos h42]
      have e2 : k - 13 + 1 = k - 12 := by omega
      simp only [POW, e2]
    · rw [if_neg (fun hh => by omega), if_neg h42]

/-! ## The edges and the heights in closed form -/

theorem edges_loop (n : Nat) (e : edges_t) :
    (forUpTo
      (fun fn e =>
        ({ lower_freqs := e.lower_freqs.put 0 fn (freqs.get 0 fn),
           center_freqs := e.center_freqs.put 0 fn (freqs.get 0 (fn + 1)),
           upper_freqs := e.upper_freqs.put 0 fn (freqs.get 0 (fn + 2)) } : edges_t)) n e) =
    { lower_freqs := forUpTo (fun i t => t.put 0 (i + 0) (freqs.get 0 i)) n e.lower_freqs,
      center_freqs := forUpTo (fun i t => t.put 0 (i + 0) (freqs.get 0 (i + 1))) n e.center_freqs,
      upper_freqs := forUpTo (fun i t => t.put 0 (i + 0) (freqs.get 0 (i + 2))) n e.upper_freqs } := by
  induction n with
  | zero => rfl
  | succ n ih =>
    rw [forUpTo_succ, forUpTo_succ, forUpTo_succ, forUpTo_succ, ih]
    rfl

theorem lower_freqs_shaped :
    lower_freqs.shaped ∧ lower_freqs.length = 40 ∧ lower_freqs.channels = 1 := by
  have h := fill_shaped (fun i => freqs.get 0 i) 0 allFilters (new_fvec allFilters 1)
    (new_fvec_shaped _ _)
  have e : lower_freqs = forUpTo (fun i t => t.put 0 (i + 0) (freqs.get 0 i)) allFilters
      (new_fvec allFilters 1) := by
    unfold lower_freqs edges
    rw [edges_loop]
  rw [e]
  exact h

theorem lower_freqs_get (i : Nat) :
    lower_freqs.get 0 i = if i < 40 then freqs.get 0 i else 0 := by
  have h := fill_get (fun i => freqs.get 0 i) 0 allFilters (new_fvec allFilters 1)
    (new_fvec_shaped _ _) (by decide) (by decide) i
  have e : lower_freqs = forUpTo (fun i t => t.put 0 (i + 0) (freqs.get 0 i)) allFilters
      (new_fvec allFilters 1) := by
    unfold lower_freqs edges
    rw [edges_loop]
  have hA : allFilters = 40 := rfl
  rw [e, h, new_fvec_get, hA]
  by_cases hi : i < 40
  · rw [if_pos ⟨Nat.zero_le _, by omega⟩, if_pos hi]
    rfl
  · rw [if_neg (fun hh => by omega), if_neg hi]

theorem center_freqs_get (i : Nat) :
    center_freqs.get 0 i = if i < 40 then freqs.get 0 (i + 1) else 0 := by
  have h := fill_get (fun i => freqs.get 0 (i + 1)) 0 allFilters (new_fvec allFilters 1)
    (new_fvec_shaped _ _) (by decide) (by decide) i
  have e : center_freqs = forUpTo (fun i t => t.put 0 (i + 0) (freqs.get 0 (i + 1))) allFilters
      (new_fvec allFilters 1) := by
    unfold center_freqs edges
    rw [edges_loop]
  have hA : allFilters = 40 := rfl
  rw [e, h, new_fvec_get, hA]
  by_cases hi : i < 40
  · rw [if_pos ⟨Nat.zero_le _, by omega⟩, if_pos hi]
    rfl
  · rw [if_neg (fun hh => by omega), if_neg hi]

theorem upper_freqs_get (i : Nat) :
    upper_freqs.get 0 i = if i < 40 then freqs.get 0 (i + 2) else 0 := by
  have h := fill_get (fun i => freqs.get 0 (i + 2)) 0 allFilters (new_fvec allFilters 1)
    (new_fvec_shaped _ _) (by decide) (by decide) i
  have e : upper_freqs = forUpTo (fun i t => t.put 0 (i + 0) (freqs.get 0 (i + 2))) allFilters
      (new_fvec allFilters 1) := by
    unfold upper_freqs edges
    rw [edges_loop]
  have hA : allFilters = 40 := rfl
  rw [e, h, new_fvec_get, hA]
  by_cases hi : i < 40
  · rw [if_pos ⟨Nat.zero_le _, by omega⟩, if_pos hi]
    rfl
  · rw [if_neg (fun hh => by omega), if_neg hi]

theorem triangle_heights_get (i : Nat) :
    triangle_heights.get 0 i =
      if i < 40 then 2 / (upper_freqs.get 0 i - lower_freqs.get 0 i) else 0 := by
  have h := fill_get (fun fn => 2 / (upper_freqs.get 0 fn - lower_freqs.get 0 fn)) 0 allFilters
    (new_fvec allFilters 1) (new_fvec_shaped _ _) (by decide) (by decide) i
  have e : triangle_heights.get 0 i = _ := h
  have hA : allFilters = 40 := rfl
  rw [e, new_fvec_get, hA]
  by_cases hi : i < 40
  · rw [if_pos ⟨Nat.zero_le _, by omega⟩, if_pos hi]
    rfl
  · rw [if_neg (fun hh => by omega), if_neg hi]

/-! ## Order of the anchors -/

theorem logSpacing_gt_one : (1 : ℚ) < logSpacing := by
  norm_num [logSpacing]

theorem lastlinearCF_pos : (0 : ℚ) < lastlinearCF := by
  rw [lastlinearCF_eq]
  norm_num [lowestFrequency, linearSpacing]

/-- Consecutive anchors increase strictly, the junction 12/13 included. -/
theorem freqs_step (k : Nat) (hk : k < 41) : freqs.get 0 k < freqs.get 0 (k + 1) := by
  rw [freqs_get, freqs_get]
  by_cases h12 : k < 12
  · rw [if_pos (by omega), if_pos (by omega)]
    have : (0 : ℚ) < linearSpacing := by norm_num [linearSpacing]
    push_cast
    linarith
  · by_cases e12 : k = 12
    · subst e12
      rw [if_pos (by omega), if_neg (by omega), if_pos (by omega)]
      have h1 := logSpacing_gt_one
      have h2 := lastlinearCF_pos
      have e : lowestFrequency + ((12 : Nat) : ℚ) * linearSpacing = lastlinearCF := by
        rw [lastlinearCF_eq]
        norm_num
      rw [e]
      norm_num
      nlinarith
    · rw [if_neg (by omega), if_pos (by omega), if_neg (by omega), if_pos (by omega)]
      have e : k + 1 - 12 = (k - 12) + 1 := by omega
      rw [e, pow_succ]
      have h1 := logSpacing_gt_one
      have h2 := lastlinearCF_pos
      have h3 : (0 : ℚ) < logSpacing ^ (k - 12) := pow_pos (by linarith) _
      have h4 : (0 : ℚ) < lastlinearCF * logSpacing ^ (k - 12) := mul_pos h2 h3
      rw [← mul_assoc]
      nlinarith

theorem freqs_strict_mono (a b : Nat) (hab : a < b) (hb : b < 42) :
    freqs.get 0 a < freqs.get 0 b := by
  induction b with
  | zero => omega
  | succ b ih =>
    have hstep := freqs_step b (by omega)
    by_cases e : a = b
    · subst e
      exact hstep
    · exact lt_trans (ih (by omega) (by omega)) hstep

/-! ## Shape and frame of the loops that build a filter -/

theorem positive_slope_frame (fft : fvec_t) (fn : Nat) (riseInc : ℚ) (rem : Nat) :
    ∀ (bin : Nat) (F : fvec_t),
      (F.shaped → (positive_slope fft fn riseInc rem bin F).1.shaped) ∧
      (positive_slope fft fn riseInc rem bin F).1.length = F.length ∧
      (positive_slope fft fn riseInc rem bin F).1.channels = F.channels ∧
      ∀ c b, c ≠ fn → (positive_slope fft fn riseInc rem bin F).1.get c b = F.get c b := by
  induction rem with
  | zero =>
    intro bin F
    exact ⟨fun h => h, rfl, rfl, fun _ _ _ => rfl⟩
  | succ rem ih =>
    intro bin F
    simp only [positive_slope]
    split_ifs with hbr
    · exact ⟨fun h => put_shaped _ _ _ _ h, rfl, rfl, fun c b hc => get_put_other _ _ _ _ _ _ hc⟩
    · obtain ⟨h1, h2, h3, h4⟩ :=
        ih (bin + 1) (F.put fn bin ((fft.get 0 bin - lower_freqs.get 0 fn) * riseInc))
      refine ⟨fun h => h1 (put_shaped _ _ _ _ h), h2, h3, fun c b hc => ?_⟩
      rw [h4 c b hc, get_put_other _ _ _ _ _ _ hc]

theorem negative_slope_frame (fft : fvec_t) (fn : Nat) (downInc : ℚ) (rem : Nat) :
    ∀ (bin : Nat) (F : fvec_t),
      (F.shaped → (negative_slope fft fn downInc rem bin F).shaped) ∧
      (negative_slope fft fn downInc rem bin F).length = F.length ∧
      (negative_slope fft fn downInc rem bin F).channels = F.channels ∧
      ∀ c b, c ≠ fn → (negative_slope fft fn downInc rem bin F).get c b = F.get c b := by
  induction rem with
  | zero =>
    intro bin F
    exact ⟨fun h => h, rfl, rfl, fun _ _ _ => rfl⟩
  | succ rem ih =>
    intro bin F
    simp only [negative_slope]
    split_ifs with hbr
    · exact ⟨fun h => put_shaped _ _ _ _ h, rfl, rfl, fun c b hc => get_put_other _ _ _ _ _ _ hc⟩
    · obtain ⟨h1, h2, h3, h4⟩ :=
        ih (bin + 1) (F.put fn bin
          (F.get fn bin + (upper_freqs.get 0 fn - fft.get 0 bin) * downInc))
      refine ⟨fun h => h1 (put_shaped _ _ _ _ h), h2, h3, fun c b hc => ?_⟩
      rw [h4 c b hc, get_put_other _ _ _ _ _ _ hc]

/-- Building the filter `fn` keeps the shape of the table and leaves every other row as
it was. -/
theorem build_filter_frame (fft : fvec_t) (win_s fn : Nat) (F : fvec_t) :
    (F.shaped → (build_filter fft win_s fn F).shaped) ∧
    (build_filter fft win_s fn F).length = F.length ∧
    (build_filter fft win_s fn F).channels = F.channels ∧
    ∀ c b, c ≠ fn → (build_filter fft win_s fn F).get c b = F.get c b := by
  obtain ⟨p1, p2, p3, p4⟩ :=
    positive_slope_frame fft fn (riseInc fn) (u32_sub win_s 1 - first_bin fft win_s fn)
      (first_bin fft win_s fn) F
  obtain ⟨n1, n2, n3, n4⟩ :=
    negative_slope_frame fft fn (downInc fn)
      (u32_sub win_s 1 - u32_add (rise_part fft win_s fn F).2 1)
      (u32_add (rise_part fft win_s fn F).2 1) (rise_part fft win_s fn F).1
  unfold build_filter
  unfold rise_part at n1 n2 n3 n4 ⊢
  refine ⟨fun h => n1 (p1 h), by rw [n2, p2], by rw [n3, p3], fun c b hc => ?_⟩
  rw [n4 c b hc, p4 c b hc]

/-- The loop "building each filter table" run for the filters `0 .. n-1`: the table
keeps its shape, and the rows `n` and above are still untouched. -/
theorem build_loop_frame (fft : fvec_t) (win_s : Nat) (F : fvec_t) (n : Nat) :
    (F.shaped → (forUpTo (fun fn filters => build_filter fft win_s fn filters) n F).shaped) ∧
    (forUpTo (fun fn filters => build_filter fft win_s fn filters) n F).length = F.length ∧
    (forUpTo (fun fn filters => build_filter fft win_s fn filters) n F).channels = F.channels ∧
    ∀ c b, n ≤ c →
      (forUpTo (fun fn filters => build_filter fft win_s fn filters) n F).get c b = F.get c b := by
  induction n with
  | zero => exact ⟨fun h => h, rfl, rfl, fun _ _ _ => rfl⟩
  | succ n ih =>
    obtain ⟨h1, h2, h3, h4⟩ := ih
    obtain ⟨b1, b2, b3, b4⟩ := build_filter_frame fft win_s n
      (forUpTo (fun fn filters => build_filter fft win_s fn filters) n F)
    rw [forUpTo_succ]
    refine ⟨fun h => b1 (h1 h), ?_, ?_, fun c b hc => ?_⟩
    · rw [b2, h2]
    · rw [b3, h3]
    · rw [b4 c b (by omega), h4 c b (by omega)]

/-- Row `i` of the final table is row `i` of the table right after filter `i` was built:
the filters built later do not write to it. -/
theorem build_loop_row (fft : fvec_t) (win_s : Nat) (F : fvec_t) (n i b : Nat) (hi : i < n) :
    (forUpTo (fun fn filters => build_filter fft win_s fn filters) n F).get i b =
      (build_filter fft win_s i
        (forUpTo (fun fn filters => build_filter fft win_s fn filters) i F)).get i b := by
  induction n with
  | zero => omega
  | succ n ih =>
    rw [forUpTo_succ]
    by_cases e : i = n
    · subst e
      rfl
    · rw [(build_filter_frame fft win_s n _).2.2.2 i b e]
      exact ih (by omega)

/-- The lookup table `fft_freqs`: one row of `win_s` cells, cell `b` holding the frequency
of bin `b`. -/
theorem fft_freqs_shaped (bintofreq : ℚ → ℚ → ℚ → ℚ) (samplerate : ℚ) (win_s : Nat) :
    (fft_freqs bintofreq samplerate win_s).shaped ∧
    (fft_freqs bintofreq samplerate win_s).length = win_s ∧
    (fft_freqs bintofreq samplerate win_s).channels = 1 :=
  fill_shaped (fun bin => bintofreq bin samplerate win_s) 0 win_s (new_fvec win_s 1)
    (new_fvec_shaped _ _)

theorem fft_freqs_get (bintofreq : ℚ → ℚ → ℚ → ℚ) (samplerate : ℚ) (win_s b : Nat) :
    (fft_freqs bintofreq samplerate win_s).get 0 b =
      if b < win_s then bintofreq b samplerate win_s else 0 := by
  have h := fill_get (fun bin => bintofreq bin samplerate win_s) 0 win_s (new_fvec win_s 1)
    (new_fvec_shaped _ _) Nat.one_pos (Nat.le_of_eq (Nat.zero_add win_s)) b
  have e : (fft_freqs bintofreq samplerate win_s).get 0 b = _ := h
  rw [e, new_fvec_get]
  by_cases hb : b < win_s
  · rw [if_pos ⟨Nat.zero_le _, by omega⟩, if_pos hb]
    rfl
  · rw [if_neg (fun hh => by omega), if_neg hb]

/-! ## The filter edges -/

/-- C4: for every filter index `i < 40` the edges computed by the function satisfy
`lower[i] < center[i] < upper[i]`, and the 42 anchors `freqs[0..41]` (13 linear ones, then
29 geometric ones) increase strictly, across the junction 12/13 as well. Nothing here
depends on the sample rate or on the dimensions of the table. -/
theorem C4_edge_ordering (i a b : Nat) (hi : i < 40) (hab : a < b) (hb : b < 42) :
    lower_freqs.get 0 i < center_freqs.get 0 i ∧
    center_freqs.get 0 i < upper_freqs.get 0 i ∧
    freqs.get 0 a < freqs.get 0 b := by
  rw [lower_freqs_get, center_freqs_get, upper_freqs_get, if_pos hi, if_pos hi, if_pos hi]
  exact ⟨freqs_step i (by omega), freqs_step (i + 1) (by omega), freqs_strict_mono a b hab hb⟩

theorem C4_edge_ordering_witness :
    lower_freqs.get 0 12 < center_freqs.get 0 12 ∧
    center_freqs.get 0 12 < upper_freqs.get 0 12 ∧
    freqs.get 0 12 < freqs.get 0 13 :=
  C4_edge_ordering 12 12 13 (by decide) (by decide) (by decide)

/-- C5: for every `i < 39`, `lower[i+1] = center[i]` and `upper[i] = center[i+1]`; the
three edge buffers are the slices at offsets 0, 1 and 2 of the one anchor buffer `freqs`,
which has 42 entries. -/
theorem C5_half_overlap (i : Nat) (hi : i < 39) :
    lower_freqs.get 0 (i + 1) = center_freqs.get 0 i ∧
    upper_freqs.get 0 i = center_freqs.get 0 (i + 1) ∧
    lower_freqs.get 0 i = freqs.get 0 i ∧
    center_freqs.get 0 i = freqs.get 0 (i + 1) ∧
    upper_freqs.get 0 i = freqs.get 0 (i + 2) ∧
    freqs.length = 42 := by
  have h0 : i < 40 := by omega
  have h1 : i + 1 < 40 := by omega
  refine ⟨?_, ?_, ?_, ?_, ?_, freqs_shaped.2.1⟩ <;>
    simp only [lower_freqs_get, center_freqs_get, upper_freqs_get, if_pos h0, if_pos h1]

theorem C5_half_overlap_witness :
    lower_freqs.get 0 (12 + 1) = center_freqs.get 0 12 ∧
    upper_freqs.get 0 12 = center_freqs.get 0 (12 + 1) ∧
    lower_freqs.get 0 12 = freqs.get 0 12 ∧
    center_freqs.get 0 12 = freqs.get 0 (12 + 1) ∧
    upper_freqs.get 0 12 = freqs.get 0 (12 + 2) ∧
    freqs.length = 42 :=
  C5_half_overlap 12 (by decide)

/-- C6: for every filter `i < 40` the divisor `upper[i] - lower[i]` of the height is not
zero, the height is `2 / (upper[i] - lower[i])`, and the triangle has area
`height[i] * (upper[i] - lower[i]) / 2 = 1`; the sample rate plays no part. -/
theorem C6_unit_area (i : Nat) (hi : i < 40) :
    upper_freqs.get 0 i - lower_freqs.get 0 i ≠ 0 ∧
    triangle_heights.get 0 i = 2 / (upper_freqs.get 0 i - lower_freqs.get 0 i) ∧
    triangle_heights.get 0 i * (upper_freqs.get 0 i - lower_freqs.get 0 i) / 2 = 1 := by
  have hne : upper_freqs.get 0 i - lower_freqs.get 0 i ≠ 0 := by
    rw [lower_freqs_get, upper_freqs_get, if_pos hi, if_pos hi]
    have := freqs_strict_mono i (i + 2) (by omega) (by omega)
    intro h
    linarith
  refine ⟨hne, ?_, ?_⟩
  · rw [triangle_heights_get, if_pos hi]
  · rw [triangle_heights_get, if_pos hi]
    field_simp

theorem C6_unit_area_witness :
    upper_freqs.get 0 0 - lower_freqs.get 0 0 ≠ 0 ∧
    triangle_heights.get 0 0 = 2 / (upper_freqs.get 0 0 - lower_freqs.get 0 0) ∧
    triangle_heights.get 0 0 * (upper_freqs.get 0 0 - lower_freqs.get 0 0) / 2 = 1 :=
  C6_unit_area 0 (by decide)

/-! ## The linear and the logarithmic segment -/

/-- C7, as the spec words it, fails at `k = 1`: the anchor computed by the code is
`133.3333 + 66.66666666`, which is not `133.3333 + 1 * 66.66667`. -/
theorem C7_spec_constant_counterexample :
    freqs.get 0 1 ≠ 133.3333 + ((1 : Nat) : ℚ) * 66.66667 := by
  rw [freqs_get, if_pos (by decide)]
  norm_num [lowestFrequency, linearSpacing]

/-- C7, amended: for every `k < 13` the anchor computed by the code is
`133.3333 + k * 66.66666666` Hz, with the spacing constant of the source. -/
theorem C7_linear_segment (k : Nat) (hk : k < 13) :
    freqs.get 0 k = 133.3333 + (k : ℚ) * 66.66666666 := by
  rw [freqs_get, if_pos hk]
  rfl

theorem C7_linear_segment_witness :
    freqs.get 0 1 = 133.3333 + ((1 : Nat) : ℚ) * 66.66666666 :=
  C7_linear_segment 1 (by decide)

/-- C8: for every `k` with `0 <= k <= 27`, `anchor[13+k] = anchor[12] * 1.0711703^(k+1)`
where `anchor[12]` is the last linear anchor; consecutive log anchors have the constant
ratio 1.0711703; the lower edge of filter 13 is the center of filter 12, and
`center[13] = center[12] * 1.0711703`. -/
theorem C8_log_segment (k : Nat) (hk : k ≤ 27) :
    freqs.get 0 (13 + k) = freqs.get 0 12 * (1.0711703 : ℚ) ^ (k + 1) ∧
    freqs.get 0 12 = lastlinearCF ∧
    freqs.get 0 (13 + k + 1) = freqs.get 0 (13 + k) * 1.0711703 ∧
    lower_freqs.get 0 13 = center_freqs.get 0 12 ∧
    center_freqs.get 0 13 = center_freqs.get 0 12 * 1.0711703 := by
  have h12 : freqs.get 0 12 = lastlinearCF := by
    rw [freqs_get, if_pos (by decide), lastlinearCF_eq]
    norm_num
  have hk1 : freqs.get 0 (13 + k) = lastlinearCF * logSpacing ^ (k + 1) := by
    rw [freqs_get, if_neg (by omega), if_pos (by omega)]
    have e : 13 + k - 12 = k + 1 := by omega
    rw [e]
  have hk2 : freqs.get 0 (13 + k + 1) = lastlinearCF * logSpacing ^ (k + 1) * logSpacing := by
    rw [freqs_get, if_neg (by omega), if_pos (by omega)]
    have e : 13 + k + 1 - 12 = (k + 1) + 1 := by omega
    rw [e, pow_succ, mul_assoc]
  have h13 : freqs.get 0 13 = lastlinearCF * logSpacing := by
    rw [freqs_get, if_neg (by decide), if_pos (by decide)]
    norm_num
  have h14 : freqs.get 0 14 = lastlinearCF * logSpacing * logSpacing := by
    rw [freqs_get, if_neg (by decide), if_pos (by decide)]
    norm_num [pow_succ, mul_assoc]
  have hL : logSpacing = (1.0711703 : ℚ) := rfl
  refine ⟨?_, h12, ?_, ?_, ?_⟩
  · rw [hk1, h12, hL]
  · rw [hk2, hk1, hL]
  · rw [lower_freqs_get, center_freqs_get, if_pos (by decide), if_pos (by decide)]
  · rw [center_freqs_get, center_freqs_get, if_pos (by decide), if_pos (by decide), h14, h13, hL]

theorem C8_log_segment_witness :
    freqs.get 0 (13 + 27) = freqs.get 0 12 * (1.0711703 : ℚ) ^ (27 + 1) ∧
    freqs.get 0 12 = lastlinearCF ∧
    freqs.get 0 (13 + 27 + 1) = freqs.get 0 (13 + 27) * 1.0711703 ∧
    lower_freqs.get 0 13 = center_freqs.get 0 12 ∧
    center_freqs.get 0 13 = center_freqs.get 0 12 * 1.0711703 :=
  C8_log_segment 27 (by decide)

/-! ## The scenarios of the spec -/

theorem center_12_value : center_freqs.get 0 12 = 933.33329992 * 1.0711703 := by
  rw [center_freqs_get, if_pos (by decide), freqs_get, if_neg (by decide), if_pos (by decide),
    lastlinearCF_eq]
  norm_num [lowestFrequency, linearSpacing, logSpacing]

/-- C9, as the spec words it, fails: the center of filter 12 computed by the code is
`anchor[13]`, about 999.76 Hz, more than 66 Hz away from 933.3 Hz. -/
theorem C9_center_12_counterexample :
    ¬ (|center_freqs.get 0 12 - 933.3| < 1) := by
  rw [center_12_value]
  norm_num [abs_lt]

/-- C9, amended: for filter 12 it is the lower edge `lower[12] = anchor[12]`, the last
linear anchor, that lies within 1 Hz of 933.3 Hz; its center `center[12] = anchor[13]` is
`anchor[12] * 1.0711703`, within 0.01 Hz of 999.76 Hz. -/
theorem C9_filter_12_edges :
    lower_freqs.get 0 12 = freqs.get 0 12 ∧
    |lower_freqs.get 0 12 - 933.3| < 1 ∧
    center_freqs.get 0 12 = freqs.get 0 13 ∧
    center_freqs.get 0 12 = lower_freqs.get 0 12 * 1.0711703 ∧
    |center_freqs.get 0 12 - 999.76| < 0.01 := by
  have hlow : lower_freqs.get 0 12 = 933.33329992 := by
    rw [lower_freqs_get, if_pos (by decide), freqs_get, if_pos (by decide)]
    norm_num [lowestFrequency, linearSpacing]
  refine ⟨?_, ?_, ?_, ?_, ?_⟩
  · rw [lower_freqs_get, if_pos (by decide)]
  · rw [hlow]
    norm_num [abs_lt]
  · rw [center_freqs_get, if_pos (by decide)]
  · rw [center_12_value, hlow]
  · rw [center_12_value]
    norm_num [abs_lt]

/-- C10: filter 0 has `lower[0] = 133.3333`, within 0.01 Hz of 133.33, and
`center[0] = 133.3333 + 66.66666666`, within 0.01 Hz of 200.0; the edges are the same for
every sample rate and every table, so also for 44100 Hz and 40 rows. -/
theorem C10_scenario_A :
    lower_freqs.get 0 0 = 133.3333 ∧
    center_freqs.get 0 0 = 133.3333 + 66.66666666 ∧
    |lower_freqs.get 0 0 - 133.33| < 0.01 ∧
    |center_freqs.get 0 0 - 200.0| < 0.01 := by
  have hlow : lower_freqs.get 0 0 = 133.3333 := by
    rw [lower_freqs_get, if_pos (by decide), freqs_get, if_pos (by decide)]
    norm_num [lowestFrequency, linearSpacing]
  have hcen : center_freqs.get 0 0 = 133.3333 + 66.66666666 := by
    rw [center_freqs_get, if_pos (by decide), freqs_get, if_pos (by decide)]
    norm_num [lowestFrequency, linearSpacing]
  refine ⟨hlow, hcen, ?_, ?_⟩
  · rw [hlow]
    norm_num [abs_lt]
  · rw [hcen]
    norm_num [abs_lt]

/-! ## The three inner loops -/

theorem skip_first_succ (fft : fvec_t) (fn rem bin : Nat) :
    skip_first fft fn (rem + 1) bin =
      if fft.get 0 bin ≤ lower_freqs.get 0 fn ∧ fft.get 0 (bin + 1) > lower_freqs.get 0 fn then bin
      else skip_first fft fn rem (bin + 1) := rfl

theorem positive_slope_succ (fft : fvec_t) (fn : Nat) (r : ℚ) (rem bin : Nat) (F : fvec_t) :
    positive_slope fft fn r (rem + 1) bin F =
      if fft.get 0 (bin + 1) > center_freqs.get 0 fn then
        (F.put fn bin ((fft.get 0 bin - lower_freqs.get 0 fn) * r), bin)
      else
        positive_slope fft fn r rem (bin + 1)
          (F.put fn bin ((fft.get 0 bin - lower_freqs.get 0 fn) * r)) := rfl

theorem negative_slope_succ (fft : fvec_t) (fn : Nat) (d : ℚ) (rem bin : Nat) (F : fvec_t) :
    negative_slope fft fn d (rem + 1) bin F =
      if fft.get 0 (bin + 1) > upper_freqs.get 0 fn then
        F.put fn bin (F.get fn bin + (upper_freqs.get 0 fn - fft.get 0 bin) * d)
      else
        negative_slope fft fn d rem (bin + 1)
          (F.put fn bin (F.get fn bin + (upper_freqs.get 0 fn - fft.get 0 bin) * d)) := rfl

/-- The scan for the first bin, when bin `bin` is not above `lower[fn]` and the last bin
of the scan is: it stops at the bin `r` with `fft[r] <= lower[fn] < fft[r+1]`. -/
theorem skip_first_spec (fft : fvec_t) (fn : Nat) (rem : Nat) :
    ∀ bin, fft.get 0 bin ≤ lower_freqs.get 0 fn →
      lower_freqs.get 0 fn < fft.get 0 (bin + rem) →
      bin ≤ skip_first fft fn rem bin ∧ skip_first fft fn rem bin < bin + rem ∧
      fft.get 0 (skip_first fft fn rem bin) ≤ lower_freqs.get 0 fn ∧
      lower_freqs.get 0 fn < fft.get 0 (skip_first fft fn rem bin + 1) := by
  induction rem with
  | zero =>
    intro bin h0 h1
    exact absurd h1 (not_lt.mpr h0)
  | succ rem ih =>
    intro bin h0 h1
    rw [skip_first_succ]
    split_ifs with hc
    · exact ⟨le_refl _, by omega, hc.1, hc.2⟩
    · have h2 : fft.get 0 (bin + 1) ≤ lower_freqs.get 0 fn := by
        by_contra hcon
        exact hc ⟨h0, not_le.mp hcon⟩
      have e : bin + 1 + rem = bin + (rem + 1) := by omega
      obtain ⟨a1, a2, a3, a4⟩ := ih (bin + 1) h2 (by rw [e]; exact h1)
      exact ⟨by omega, by omega, a3, a4⟩

/-- The positive slope loop, entered at a bin not above `center[fn]` with a bin above
`center[fn]` ahead: it writes the rising values into the bins from `bin` to the bin `r` where it
stops, `fft[r] <= center[fn] < fft[r+1]`, and nothing else. -/
theorem positive_slope_spec (fft : fvec_t) (fn : Nat) (r : ℚ) (rem : Nat) :
    ∀ (bin : Nat) (F : fvec_t), F.shaped → fn < F.channels → bin + rem ≤ F.length →
      fft.get 0 bin ≤ center_freqs.get 0 fn →
      center_freqs.get 0 fn < fft.get 0 (bin + rem) →
      bin ≤ (positive_slope fft fn r rem bin F).2 ∧
      (positive_slope fft fn r rem bin F).2 < bin + rem ∧
      fft.get 0 (positive_slope fft fn r rem bin F).2 ≤ center_freqs.get 0 fn ∧
      center_freqs.get 0 fn < fft.get 0 ((positive_slope fft fn r rem bin F).2 + 1) ∧
      ∀ c b, (positive_slope fft fn r rem bin F).1.get c b =
        if c = fn ∧ bin ≤ b ∧ b ≤ (positive_slope fft fn r rem bin F).2 then
          (fft.get 0 b - lower_freqs.get 0 fn) * r
        else F.get c b := by
  induction rem with
  | zero =>
    intro bin F _ _ _ h0 h1
    exact absurd h1 (not_lt.mpr h0)
  | succ rem ih =>
    intro bin F hF hfn hlen h0 h1
    rw [positive_slope_succ]
    have hput : ∀ c b, (F.put fn bin ((fft.get 0 bin - lower_freqs.get 0 fn) * r)).get c b =
        if c = fn ∧ b = bin then (fft.get 0 bin - lower_freqs.get 0 fn) * r else F.get c b :=
      fun c b => get_put_shaped F hF fn bin c b _ hfn (by omega)
    split_ifs with hbr
    · refine ⟨le_refl _, by omega, h0, hbr, fun c b => ?_⟩
      show (F.put fn bin _).get c b = _
      rw [hput]
      by_cases hcb : c = fn ∧ b = bin
      · obtain ⟨rfl, rfl⟩ := hcb
        rw [if_pos ⟨rfl, rfl⟩, if_pos ⟨rfl, le_refl _, le_refl _⟩]
      · rw [if_neg hcb, if_neg (fun hh => hcb ⟨hh.1, by have := hh.2; show b = bin; omega⟩)]
    · have h2 : fft.get 0 (bin + 1) ≤ center_freqs.get 0 fn := not_lt.mp hbr
      have e : bin + 1 + rem = bin + (rem + 1) := by omega
      obtain ⟨a1, a2, a3, a4, a5⟩ :=
        ih (bin + 1) (F.put fn bin ((fft.get 0 bin - lower_freqs.get 0 fn) * r))
          (put_shaped _ _ _ _ hF) hfn (by rw [put_length]; omega) h2 (by rw [e]; exact h1)
      refine ⟨by omega, by omega, a3, a4, fun c b => ?_⟩
      rw [a5, hput]
      by_cases hcb : c = fn ∧ b = bin
      · obtain ⟨rfl, rfl⟩ := hcb
        rw [if_neg (fun hh => by omega), if_pos ⟨rfl, rfl⟩, if_pos ⟨rfl, le_refl _, by omega⟩]
      · rw [if_neg hcb]
        by_cases hin : c = fn ∧ bin + 1 ≤ b ∧
            b ≤ (positive_slope fft fn r rem (bin + 1)
              (F.put fn bin ((fft.get 0 bin - lower_freqs.get 0 fn) * r))).2
        · rw [if_pos hin, if_pos ⟨hin.1, by omega, hin.2.2⟩]
        · rw [if_neg hin, if_neg (fun hh => hin ⟨hh.1, by
            have : b ≠ bin := fun e => hcb ⟨hh.1, e⟩
            omega, hh.2.2⟩)]

/-- The negative slope loop, entered at a bin not above `upper[fn]` with a bin above
`upper[fn]` ahead: it adds the falling values to the bins from `bin` to the bin `last` where it
stops, `fft[last] <= upper[fn] < fft[last+1]`, and writes nothing else. -/
theorem negative_slope_spec (fft : fvec_t) (fn : Nat) (d : ℚ) (rem : Nat) :
    ∀ (bin : Nat) (F : fvec_t), F.shaped → fn < F.channels → bin + rem ≤ F.length →
      fft.get 0 bin ≤ upper_freqs.get 0 fn →
      upper_freqs.get 0 fn < fft.get 0 (bin + rem) →
      ∃ last, bin ≤ last ∧ last < bin + rem ∧
        fft.get 0 last ≤ upper_freqs.get 0 fn ∧
        upper_freqs.get 0 fn < fft.get 0 (last + 1) ∧
        ∀ c b, (negative_slope fft fn d rem bin F).get c b =
          if c = fn ∧ bin ≤ b ∧ b ≤ last then
            F.get fn b + (upper_freqs.get 0 fn - fft.get 0 b) * d
          else F.get c b := by
  induction rem with
  | zero =>
    intro bin F _ _ _ h0 h1
    exact absurd h1 (not_lt.mpr h0)
  | succ rem ih =>
    intro bin F hF hfn hlen h0 h1
    rw [negative_slope_succ]
    have hput : ∀ c b,
        (F.put fn bin (F.get fn bin + (upper_freqs.get 0 fn - fft.get 0 bin) * d)).get c b =
        if c = fn ∧ b = bin then F.get fn bin + (upper_freqs.get 0 fn - fft.get 0 bin) * d
        else F.get c b :=
      fun c b => get_put_shaped F hF fn bin c b _ hfn (by omega)
    split_ifs with hbr
    · refine ⟨bin, le_refl _, by omega, h0, hbr, fun c b => ?_⟩
      rw [hput]
      by_cases hcb : c = fn ∧ b = bin
      · obtain ⟨rfl, rfl⟩ := hcb
        rw [if_pos ⟨rfl, rfl⟩, if_pos ⟨rfl, le_refl _, le_refl _⟩]
      · rw [if_neg hcb, if_neg (fun hh => hcb ⟨hh.1, by have := hh.2; show b = bin; omega⟩)]
    · have h2 : fft.get 0 (bin + 1) ≤ upper_freqs.get 0 fn := not_lt.mp hbr
      have e : bin + 1 + rem = bin + (rem + 1) := by omega
      obtain ⟨last, a1, a2, a3, a4, a5⟩ :=
        ih (bin + 1) (F.put fn bin (F.get fn bin + (upper_freqs.get 0 fn - fft.get 0 bin) * d))
          (put_shaped _ _ _ _ hF) hfn (by rw [put_length]; omega) h2 (by rw [e]; exact h1)
      refine ⟨last, by omega, by omega, a3, a4, fun c b => ?_⟩
      have e1 := hput fn b
      have e2 := hput c b
      rw [a5]
      by_cases hcb : c = fn ∧ b = bin
      · rw [if_neg (fun hh => by have := hcb.2; omega), e2, if_pos hcb,
          if_pos ⟨hcb.1, by have := hcb.2; omega, by have := hcb.2; omega⟩, hcb.2]
      · by_cases hin : c = fn ∧ bin + 1 ≤ b ∧ b ≤ last
        · rw [if_pos hin, if_pos ⟨hin.1, by omega, hin.2.2⟩, e1,
            if_neg (fun hh => by have := hh.2; omega)]
        · rw [if_neg hin, e2, if_neg hcb, if_neg (fun hh => hin ⟨hh.1, by
            have : b ≠ bin := fun e => hcb ⟨hh.1, e⟩
            omega, hh.2.2⟩)]

/-! ## One filter -/

theorem u32_sub_one (w : Nat) (h1 : 1 ≤ w) (h2 : w < 4294967296) : u32_sub w 1 = w - 1 := by
  unfold u32_sub
  omega

theorem u32_add_one (b : Nat) (h : b + 1 < 4294967296) : u32_add b 1 = b + 1 := by
  unfold u32_add
  omega

/-- One filter on a bin grid that is fine enough for it: the row is the triangle sampled
at the bin frequencies, added to what the row held between `center` and `upper`. -/
theorem build_filter_spec (fft : fvec_t) (win_s fn : Nat) (F : fvec_t)
    (hw : win_s < 4294967296) (hF : F.shaped) (hfn : fn < F.channels) (hlen : F.length = win_s)
    (hmono : ∀ a b, a < b → b < win_s → fft.get 0 a < fft.get 0 b)
    (hfirst : fft.get 0 0 ≤ lower_freqs.get 0 fn)
    (hrise : ∃ b, b < win_s ∧ lower_freqs.get 0 fn < fft.get 0 b ∧
      fft.get 0 b ≤ center_freqs.get 0 fn)
    (hfall : ∃ b, b < win_s ∧ center_freqs.get 0 fn < fft.get 0 b ∧
      fft.get 0 b ≤ upper_freqs.get 0 fn)
    (hlast : upper_freqs.get 0 fn < fft.get 0 (win_s - 1))
    (b : Nat) (hb : b < win_s) :
    (build_filter fft win_s fn F).get fn b =
      if lower_freqs.get 0 fn < fft.get 0 b ∧ fft.get 0 b ≤ center_freqs.get 0 fn then
        (fft.get 0 b - lower_freqs.get 0 fn) * riseInc fn
      else if center_freqs.get 0 fn < fft.get 0 b ∧ fft.get 0 b ≤ upper_freqs.get 0 fn then
        F.get fn b + (upper_freqs.get 0 fn - fft.get 0 b) * downInc fn
      else F.get fn b := by
  obtain ⟨br, hbr, hr1, hr2⟩ := hrise
  obtain ⟨bf, hbf, hf1, hf2⟩ := hfall
  -- the table is monotone, weakly and strictly
  have hle : ∀ a c, a ≤ c → c < win_s → fft.get 0 a ≤ fft.get 0 c := by
    intro a c hac hc
    rcases Nat.lt_or_eq_of_le hac with h | h
    · exact le_of_lt (hmono a c h hc)
    · rw [h]
  have hidx : ∀ a c, a < win_s → fft.get 0 a < fft.get 0 c → a < c := by
    intro a c ha hac
    by_contra hcon
    have := hle c a (by omega) ha
    linarith
  have hlast_eq : u32_sub win_s 1 = win_s - 1 := u32_sub_one win_s (by omega) hw
  -- the first bin
  have hs := skip_first_spec fft fn (win_s - 1) 0 hfirst (by
    rw [Nat.zero_add]
    linarith)
  rw [Nat.zero_add] at hs
  obtain ⟨-, s2, s3, s4⟩ := hs
  have hfb : first_bin fft win_s fn = skip_first fft fn (win_s - 1) 0 + 1 := by
    unfold first_bin
    rw [hlast_eq, Nat.sub_zero, u32_add_one _ (by omega)]
  -- the bin that ends "skip first elements" is below every bin over `lower`
  have hb0r : skip_first fft fn (win_s - 1) 0 < br :=
    hidx _ _ (by omega) (lt_of_le_of_lt s3 hr1)
  -- the positive slope
  have hp := positive_slope_spec fft fn (riseInc fn)
    (win_s - 1 - (skip_first fft fn (win_s - 1) 0 + 1)) (skip_first fft fn (win_s - 1) 0 + 1) F hF
    hfn (by omega) (le_trans (hle _ br (by omega) hbr) hr2) (by
      have e : skip_first fft fn (win_s - 1) 0 + 1 +
          (win_s - 1 - (skip_first fft fn (win_s - 1) 0 + 1)) = win_s - 1 := by omega
      rw [e]
      linarith)
  have hrp : rise_part fft win_s fn F = positive_slope fft fn (riseInc fn)
      (win_s - 1 - (skip_first fft fn (win_s - 1) 0 + 1))
      (skip_first fft fn (win_s - 1) 0 + 1) F := by
    unfold rise_part
    rw [hfb, hlast_eq]
  rw [← hrp] at hp
  obtain ⟨p1, p2, p3, p4, p5⟩ := hp
  obtain ⟨q1, q2, q3, -⟩ := positive_slope_frame fft fn (riseInc fn)
    (win_s - 1 - (skip_first fft fn (win_s - 1) 0 + 1)) (skip_first fft fn (win_s - 1) 0 + 1) F
  rw [← hrp] at q1 q2 q3
  have hb1f : (rise_part fft win_s fn F).2 < bf := hidx _ _ (by omega) (lt_of_le_of_lt p3 hf1)
  have hb1 : u32_add (rise_part fft win_s fn F).2 1 = (rise_part fft win_s fn F).2 + 1 :=
    u32_add_one _ (by omega)
  -- the negative slope
  obtain ⟨b2, n1, n2, n3, n4, n5⟩ := negative_slope_spec fft fn (downInc fn)
    (win_s - 1 - ((rise_part fft win_s fn F).2 + 1)) ((rise_part fft win_s fn F).2 + 1)
    (rise_part fft win_s fn F).1 (q1 hF) (by rw [q3]; exact hfn) (by rw [q2]; omega)
    (le_trans (hle _ bf (by omega) hbf) hf2) (by
      have e : (rise_part fft win_s fn F).2 + 1 +
          (win_s - 1 - ((rise_part fft win_s fn F).2 + 1)) = win_s - 1 := by omega
      rw [e]
      exact hlast)
  have hbuild : build_filter fft win_s fn F = negative_slope fft fn (downInc fn)
      (win_s - 1 - ((rise_part fft win_s fn F).2 + 1)) ((rise_part fft win_s fn F).2 + 1)
      (rise_part fft win_s fn F).1 := by
    unfold build_filter
    rw [hb1, hlast_eq]
  have hA : (lower_freqs.get 0 fn < fft.get 0 b ∧ fft.get 0 b ≤ center_freqs.get 0 fn) ↔
      (skip_first fft fn (win_s - 1) 0 + 1 ≤ b ∧ b ≤ (rise_part fft win_s fn F).2) := by
    constructor
    · intro h
      have h1 := hidx _ b (by omega) (lt_of_le_of_lt s3 h.1)
      have h2 : b < (rise_part fft win_s fn F).2 + 1 := hidx b _ hb (lt_of_le_of_lt h.2 p4)
      omega
    · intro h
      exact ⟨lt_of_lt_of_le s4 (hle _ b h.1 hb), le_trans (hle b _ h.2 (by omega)) p3⟩
  have hB : (center_freqs.get 0 fn < fft.get 0 b ∧ fft.get 0 b ≤ upper_freqs.get 0 fn) ↔
      ((rise_part fft win_s fn F).2 + 1 ≤ b ∧ b ≤ b2) := by
    constructor
    · intro h
      have h1 := hidx _ b (by omega) (lt_of_le_of_lt p3 h.1)
      have h2 : b < b2 + 1 := hidx b _ hb (lt_of_le_of_lt h.2 n4)
      omega
    · intro h
      exact ⟨lt_of_lt_of_le p4 (hle _ b h.1 hb), le_trans (hle b _ h.2 (by omega)) n3⟩
  rw [hbuild, n5, p5]
  simp only [eq_self_iff_true, true_and]
  by_cases cA : lower_freqs.get 0 fn < fft.get 0 b ∧ fft.get 0 b ≤ center_freqs.get 0 fn
  · have cB : ¬ (center_freqs.get 0 fn < fft.get 0 b ∧ fft.get 0 b ≤ upper_freqs.get 0 fn) :=
      fun hh => absurd hh.1 (not_lt.mpr cA.2)
    rw [if_neg (fun hh => cB (hB.mpr hh)), if_pos (hA.mp cA), if_pos cA]
  · by_cases cB : center_freqs.get 0 fn < fft.get 0 b ∧ fft.get 0 b ≤ upper_freqs.get 0 fn
    · rw [if_pos (hB.mp cB), if_neg (fun hh => cA (hA.mpr hh)), if_neg cA, if_pos cB]
    · rw [if_neg (fun hh => cB (hB.mpr hh)), if_neg (fun hh => cA (hA.mpr hh)), if_neg cA,
        if_neg cB]

/-! ## The weight matrix -/

/-- C1: row `i` is the sampled unit-area triangle when the bin grid is fine enough for
filter `i`. For every mapping `bintofreq` whose table `binFreq[b] = bintofreq b samplerate numBins`
is strictly increasing over the `numBins = fb.length` bins, and every filter
`i < min(rowCount, 40)` with `binFreq[0] <= lower[i]`, some bin frequency in
`(lower[i], center[i]]`, some bin frequency in `(center[i], upper[i]]` and
`binFreq[numBins-1] > upper[i]`: after `aubio_filterbank_set_mel_coeffs`, for every bin `b`,
`W[i][b]` is `(binFreq[b] - lower[i]) * height[i] / (center[i] - lower[i])` if
`lower[i] < binFreq[b] <= center[i]`,
`(upper[i] - binFreq[b]) * height[i] / (upper[i] - center[i])` if
`center[i] < binFreq[b] <= upper[i]`, and 0 otherwise, with
`height[i] = 2 / (upper[i] - lower[i])`. (`numBins` is a `uint_t`, so below `2^32`.) -/
theorem C1_sampled_triangle (bintofreq : ℚ → ℚ → ℚ → ℚ) (fb : fvec_t)
    (samplerate freq_min freq_max : ℚ) (i : Nat)
    (hw : fb.length < 4294967296)
    (hi : i < min fb.channels 40)
    (hmono : ∀ a b : Nat, a < b → b < fb.length →
      bintofreq a samplerate fb.length < bintofreq b samplerate fb.length)
    (hfirst : bintofreq (0 : Nat) samplerate fb.length ≤ lower_freqs.get 0 i)
    (hrise : ∃ b : Nat, b < fb.length ∧
      lower_freqs.get 0 i < bintofreq b samplerate fb.length ∧
      bintofreq b samplerate fb.length ≤ center_freqs.get 0 i)
    (hfall : ∃ b : Nat, b < fb.length ∧
      center_freqs.get 0 i < bintofreq b samplerate fb.length ∧
      bintofreq b samplerate fb.length ≤ upper_freqs.get 0 i)
    (hlast : upper_freqs.get 0 i < bintofreq (fb.length - 1 : Nat) samplerate fb.length)
    (b : Nat) (hb : b < fb.length) :
    (aubio_filterbank_set_mel_coeffs bintofreq fb samplerate freq_min freq_max).get i b =
      if lower_freqs.get 0 i < bintofreq b samplerate fb.length ∧
          bintofreq b samplerate fb.length ≤ center_freqs.get 0 i then
        (bintofreq b samplerate fb.length - lower_freqs.get 0 i) *
          (2 / (upper_freqs.get 0 i - lower_freqs.get 0 i)) /
          (center_freqs.get 0 i - lower_freqs.get 0 i)
      else if center_freqs.get 0 i < bintofreq b samplerate fb.length ∧
          bintofreq b samplerate fb.length ≤ upper_freqs.get 0 i then
        (upper_freqs.get 0 i - bintofreq b samplerate fb.length) *
          (2 / (upper_freqs.get 0 i - lower_freqs.get 0 i)) /
          (upper_freqs.get 0 i - center_freqs.get 0 i)
      else 0 := by
  have hic : i < fb.channels := lt_of_lt_of_le hi (min_le_left _ _)
  have hi40 : i < 40 := lt_of_lt_of_le hi (min_le_right _ _)
  have hg : ∀ k, k < fb.length →
      (fft_freqs bintofreq samplerate fb.length).get 0 k = bintofreq k samplerate fb.length := by
    intro k hk
    rw [fft_freqs_get, if_pos hk]
  obtain ⟨br, hbr, hr1, hr2⟩ := hrise
  obtain ⟨bf, hbf, hf1, hf2⟩ := hfall
  obtain ⟨z1, z2, z3, z4⟩ := build_loop_frame (fft_freqs bintofreq samplerate fb.length)
    fb.length (fvec_zeros fb) i
  have hrow : ∀ k, (forUpTo (fun fn filters =>
      build_filter (fft_freqs bintofreq samplerate fb.length) fb.length fn filters) i
      (fvec_zeros fb)).get i k = 0 := by
    intro k
    rw [z4 i k (le_refl _), fvec_zeros_get]
  have hspec := build_filter_spec (fft_freqs bintofreq samplerate fb.length) fb.length i
    (forUpTo (fun fn filters =>
      build_filter (fft_freqs bintofreq samplerate fb.length) fb.length fn filters) i
      (fvec_zeros fb)) hw (z1 (fvec_zeros_shaped fb)) (by rw [z3]; exact hic) (by rw [z2]; rfl)
    (by
      intro a c hac hc
      rw [hg a (by omega), hg c hc]
      exact hmono a c hac hc)
    (by rw [hg 0 (by omega)]; exact hfirst)
    ⟨br, hbr, by rw [hg br hbr]; exact ⟨hr1, hr2⟩⟩
    ⟨bf, hbf, by rw [hg bf hbf]; exact ⟨hf1, hf2⟩⟩
    (by rw [hg _ (by omega)]; exact hlast) b hb
  unfold aubio_filterbank_set_mel_coeffs
  rw [build_loop_row _ _ _ _ i b hic, hspec, hrow, hg b hb]
  unfold riseInc downInc
  rw [triangle_heights_get, if_pos hi40, zero_add, mul_div_assoc, mul_div_assoc]

/-! ## Filter 0 on concrete grids -/

theorem lower_0_value : lower_freqs.get 0 0 = 133.3333 := by
  rw [lower_freqs_get, if_pos (by decide), freqs_get, if_pos (by decide)]
  norm_num [lowestFrequency, linearSpacing]

theorem center_0_value : center_freqs.get 0 0 = 199.99996666 := by
  rw [center_freqs_get, if_pos (by decide), freqs_get, if_pos (by decide)]
  norm_num [lowestFrequency, linearSpacing]

theorem upper_0_value : upper_freqs.get 0 0 = 266.66663332 := by
  rw [upper_freqs_get, if_pos (by decide), freqs_get, if_pos (by decide)]
  norm_num [lowestFrequency, linearSpacing]

theorem C1_sampled_triangle_witness :
    (aubio_filterbank_set_mel_coeffs aubio_bintofreq (new_fvec 8 40) 480 0 0).get 0 3 =
      (180 - 133.3333) * (2 / (266.66663332 - 133.3333)) / (199.99996666 - 133.3333) := by
  have h := C1_sampled_triangle aubio_bintofreq (new_fvec 8 40) 480 0 0 0 (by decide) (by decide)
    (by
      intro a b hab _
      have : (a : ℚ) < b := by exact_mod_cast hab
      simp only [aubio_bintofreq, new_fvec]
      norm_num
      linarith)
    (by rw [lower_0_value]; norm_num [aubio_bintofreq])
    ⟨3, by decide, by rw [lower_0_value, center_0_value]; norm_num [aubio_bintofreq, new_fvec]⟩
    ⟨4, by decide, by rw [center_0_value, upper_0_value]; norm_num [aubio_bintofreq, new_fvec]⟩
    (by rw [upper_0_value]; norm_num [aubio_bintofreq, new_fvec])
    3 (by decide)
  rw [h, lower_0_value, center_0_value, upper_0_value]
  norm_num [aubio_bintofreq, new_fvec]

/-- One filter on a bin grid too coarse for it (bin 0 is not above `lower`, bin 1 is, bin 2
is above `center` and bin 3 above `upper`): each slope loop writes one bin, the positive one
bin 1 and the negative one bin 2, before it compares the next bin with `center` or `upper`. -/
theorem build_filter_coarse (fft : fvec_t) (win_s fn : Nat) (F : fvec_t)
    (hw4 : 4 ≤ win_s) (hw : win_s < 4294967296)
    (hF : F.shaped) (hfn : fn < F.channels) (hlen : F.length = win_s)
    (h0 : fft.get 0 0 ≤ lower_freqs.get 0 fn) (h1 : lower_freqs.get 0 fn < fft.get 0 1)
    (h2 : center_freqs.get 0 fn < fft.get 0 2) (h3 : upper_freqs.get 0 fn < fft.get 0 3) :
    (build_filter fft win_s fn F).get fn 1 = (fft.get 0 1 - lower_freqs.get 0 fn) * riseInc fn ∧
    (build_filter fft win_s fn F).get fn 2 =
      F.get fn 2 + (upper_freqs.get 0 fn - fft.get 0 2) * downInc fn := by
  obtain ⟨k, rfl⟩ : ∃ k, win_s = k + 4 := ⟨win_s - 4, by omega⟩
  have hlast_eq : u32_sub (k + 4) 1 = k + 3 := by
    rw [u32_sub_one _ (by omega) hw]
    rfl
  have hfb : first_bin fft (k + 4) fn = 1 := by
    unfold first_bin
    rw [hlast_eq, Nat.sub_zero, show k + 3 = (k + 2) + 1 from rfl, skip_first_succ,
      if_pos ⟨h0, h1⟩]
    rfl
  have hrp : rise_part fft (k + 4) fn F =
      (F.put fn 1 ((fft.get 0 1 - lower_freqs.get 0 fn) * riseInc fn), 1) := by
    unfold rise_part
    rw [hfb, hlast_eq, show k + 3 - 1 = (k + 1) + 1 by omega, positive_slope_succ, if_pos h2]
  have hbf : build_filter fft (k + 4) fn F =
      (F.put fn 1 ((fft.get 0 1 - lower_freqs.get 0 fn) * riseInc fn)).put fn 2
        ((F.put fn 1 ((fft.get 0 1 - lower_freqs.get 0 fn) * riseInc fn)).get fn 2 +
          (upper_freqs.get 0 fn - fft.get 0 2) * downInc fn) := by
    unfold build_filter
    rw [hrp, hlast_eq]
    show negative_slope fft fn (downInc fn) (k + 3 - u32_add 1 1) (u32_add 1 1) _ = _
    rw [show u32_add 1 1 = 2 from rfl, show k + 3 - 2 = k + 1 by omega, negative_slope_succ,
      if_pos h3]
  have hF1 := put_shaped F fn 1 ((fft.get 0 1 - lower_freqs.get 0 fn) * riseInc fn) hF
  have e12 : (F.put fn 1 ((fft.get 0 1 - lower_freqs.get 0 fn) * riseInc fn)).get fn 2 =
      F.get fn 2 := by
    rw [get_put_shaped F hF fn 1 fn 2 _ hfn (by omega), if_neg (fun hh => by have := hh.2; omega)]
  rw [hbf, e12]
  constructor
  · rw [get_put_shaped _ hF1 fn 2 fn 1 _ hfn (by rw [put_length]; omega),
      if_neg (fun hh => by have := hh.2; omega),
      get_put_shaped F hF fn 1 fn 1 _ hfn (by omega), if_pos ⟨rfl, rfl⟩]
  · rw [get_put_shaped _ hF1 fn 2 fn 2 _ hfn (by rw [put_length]; omega), if_pos ⟨rfl, rfl⟩]

/-- Filter 0 at 44100 Hz on 64 bins: the bins are 689.0625 Hz apart, so bin 1 is already
above `upper[0]`; the two slope loops still write bin 1 and bin 2. -/
theorem coarse_44100_64 (freq_min freq_max : ℚ) :
    (aubio_filterbank_set_mel_coeffs aubio_bintofreq (new_fvec 64 40) 44100 freq_min
        freq_max).get 0 1 =
      (689.0625 - 133.3333) * (2 / (266.66663332 - 133.3333) / (199.99996666 - 133.3333)) ∧
    (aubio_filterbank_set_mel_coeffs aubio_bintofreq (new_fvec 64 40) 44100 freq_min
        freq_max).get 0 2 =
      (266.66663332 - 1378.125) * (2 / (266.66663332 - 133.3333) / (266.66663332 - 199.99996666)) := by
  have hg : ∀ k, k < 64 → (fft_freqs aubio_bintofreq 44100 64).get 0 k =
      44100 * (k : ℚ) / ((64 : Nat) : ℚ) := by
    intro k hk
    rw [fft_freqs_get, if_pos hk]
    rfl
  have hc := build_filter_coarse (fft_freqs aubio_bintofreq 44100 64) 64 0
    (fvec_zeros (new_fvec 64 40)) (by decide) (by decide) (fvec_zeros_shaped _) (by decide) rfl
    (by rw [hg 0 (by decide), lower_0_value]; norm_num)
    (by rw [hg 1 (by decide), lower_0_value]; norm_num)
    (by rw [hg 2 (by decide), center_0_value]; norm_num)
    (by rw [hg 3 (by decide), upper_0_value]; norm_num)
  have hr : riseInc 0 = 2 / (266.66663332 - 133.3333) / (199.99996666 - 133.3333) := by
    unfold riseInc
    rw [triangle_heights_get, if_pos (by decide), lower_0_value, center_0_value, upper_0_value]
  have hd : downInc 0 = 2 / (266.66663332 - 133.3333) / (266.66663332 - 199.99996666) := by
    unfold downInc
    rw [triangle_heights_get, if_pos (by decide), lower_0_value, center_0_value, upper_0_value]
  have hrow : ∀ b, (aubio_filterbank_set_mel_coeffs aubio_bintofreq (new_fvec 64 40) 44100
      freq_min freq_max).get 0 b =
      (build_filter (fft_freqs aubio_bintofreq 44100 64) 64 0
        (fvec_zeros (new_fvec 64 40))).get 0 b :=
    fun b => build_loop_row (fft_freqs aubio_bintofreq 44100 64) 64
      (fvec_zeros (new_fvec 64 40)) 40 0 b (by decide)
  rw [hrow, hrow, hc.1, hc.2, fvec_zeros_get, hg 1 (by decide), hg 2 (by decide), hr, hd,
    lower_0_value, upper_0_value]
  constructor <;> norm_num

/-- C2 (non-negativity of every entry of the weight matrix), the code at the sample rate
44100 Hz with 64 bins and 40 rows: the first bin above `center[0]` is also above `upper[0]`,
and the weight of filter 0 at bin 2 is negative. -/
theorem C2_negative_weight :
    (aubio_filterbank_set_mel_coeffs aubio_bintofreq (new_fvec 64 40) 44100 0 0).get 0 2 < 0 := by
  rw [(coarse_44100_64 0 0).2]
  norm_num

/-- C3 (locality: the weight is 0 at every bin whose frequency is below `lower[i]` or above
`upper[i]`), the code at the sample rate 44100 Hz with 64 bins and 40 rows: the bins 1 and 2
lie above `upper[0]`, and the weights of filter 0 at both bins are not zero. -/
theorem C3_weight_outside_edges :
    upper_freqs.get 0 0 < aubio_bintofreq ((1 : Nat) : ℚ) 44100 ((64 : Nat) : ℚ) ∧
    (aubio_filterbank_set_mel_coeffs aubio_bintofreq (new_fvec 64 40) 44100 0 0).get 0 1 ≠ 0 ∧
    upper_freqs.get 0 0 < aubio_bintofreq ((2 : Nat) : ℚ) 44100 ((64 : Nat) : ℚ) ∧
    (aubio_filterbank_set_mel_coeffs aubio_bintofreq (new_fvec 64 40) 44100 0 0).get 0 2 ≠ 0 := by
  rw [(coarse_44100_64 0 0).1, (coarse_44100_64 0 0).2, upper_0_value]
  norm_num [aubio_bintofreq]


/-! ## The arguments that the function does not use -/

/-- C12: `freq_min` and `freq_max` do not influence the result: for every table, every
sample rate and any two pairs of bounds the function produces the same weight matrix (the
same value of the table, so in particular two calls with identical inputs agree). The edge
buffers `freqs`, `lower_freqs`, `center_freqs`, `upper_freqs` and the heights are computed
from the Slaney constants alone, without any argument of the function. -/
theorem C12_freq_bounds_ignored (bintofreq : ℚ → ℚ → ℚ → ℚ) (fb : fvec_t)
    (samplerate freq_min1 freq_max1 freq_min2 freq_max2 : ℚ) :
    aubio_filterbank_set_mel_coeffs bintofreq fb samplerate freq_min1 freq_max1 =
      aubio_filterbank_set_mel_coeffs bintofreq fb samplerate freq_min2 freq_max2 := by
  unfold aubio_filterbank_set_mel_coeffs
  rfl

theorem fvec_zeros_congr (fb fb2 : fvec_t) (hc : fb.channels = fb2.channels)
    (hl : fb.length = fb2.length) : fvec_zeros fb = fvec_zeros fb2 := by
  unfold fvec_zeros
  rw [hc, hl]

theorem set_mel_coeffs_dims (bintofreq : ℚ → ℚ → ℚ → ℚ) (fb : fvec_t)
    (samplerate freq_min freq_max : ℚ) :
    (aubio_filterbank_set_mel_coeffs bintofreq fb samplerate freq_min freq_max).shaped ∧
    (aubio_filterbank_set_mel_coeffs bintofreq fb samplerate freq_min freq_max).length =
      fb.length ∧
    (aubio_filterbank_set_mel_coeffs bintofreq fb samplerate freq_min freq_max).channels =
      fb.channels := by
  obtain ⟨h1, h2, h3, -⟩ := build_loop_frame (fft_freqs bintofreq samplerate fb.length)
    fb.length (fvec_zeros fb) fb.channels
  exact ⟨h1 (fvec_zeros_shaped fb), h2, h3⟩

/-- C18: the result does not depend on the previous contents of the matrix: two tables
of the same shape (rows <= 40, numBins >= 1) give the same final matrix at the same sample
rate, and applying the function to its own result gives that result again. -/
theorem C18_previous_contents_ignored (bintofreq : ℚ → ℚ → ℚ → ℚ) (fb fb2 : fvec_t)
    (samplerate freq_min freq_max : ℚ)
    (_hrows : fb.channels ≤ 40) (_hbins : 1 ≤ fb.length)
    (hc : fb2.channels = fb.channels) (hl : fb2.length = fb.length) :
    aubio_filterbank_set_mel_coeffs bintofreq fb2 samplerate freq_min freq_max =
      aubio_filterbank_set_mel_coeffs bintofreq fb samplerate freq_min freq_max ∧
    aubio_filterbank_set_mel_coeffs bintofreq
        (aubio_filterbank_set_mel_coeffs bintofreq fb samplerate freq_min freq_max)
        samplerate freq_min freq_max =
      aubio_filterbank_set_mel_coeffs bintofreq fb samplerate freq_min freq_max := by
  have key : ∀ g : fvec_t, g.channels = fb.channels → g.length = fb.length →
      aubio_filterbank_set_mel_coeffs bintofreq g samplerate freq_min freq_max =
        aubio_filterbank_set_mel_coeffs bintofreq fb samplerate freq_min freq_max := by
    intro g gc gl
    unfold aubio_filterbank_set_mel_coeffs
    rw [fvec_zeros_congr g fb gc gl, gc, gl]
  obtain ⟨-, d2, d3⟩ := set_mel_coeffs_dims bintofreq fb samplerate freq_min freq_max
  exact ⟨key fb2 hc hl, key _ d3 d2⟩

theorem C18_previous_contents_ignored_witness :
    aubio_filterbank_set_mel_coeffs aubio_bintofreq
        { length := 8, channels := 40, data := List.replicate 40 (List.replicate 8 1) }
        480 0 0 =
      aubio_filterbank_set_mel_coeffs aubio_bintofreq (new_fvec 8 40) 480 0 0 ∧
    aubio_filterbank_set_mel_coeffs aubio_bintofreq
        (aubio_filterbank_set_mel_coeffs aubio_bintofreq (new_fvec 8 40) 480 0 0) 480 0 0 =
      aubio_filterbank_set_mel_coeffs aubio_bintofreq (new_fvec 8 40) 480 0 0 :=
  C18_previous_contents_ignored aubio_bintofreq (new_fvec 8 40)
    { length := 8, channels := 40, data := List.replicate 40 (List.replicate 8 1) }
    480 0 0 (by decide) (by decide) rfl rfl

theorem get_put_row (F : fvec_t) (hF : F.shaped) (fn i b : Nat) (v : ℚ) (hfn : fn < F.channels) :
    (F.put fn i v).get fn b = if b = i ∧ i < F.length then v else F.get fn b := by
  rw [get_put]
  have h1 : fn < F.data.length := by rw [hF.1]; exact hfn
  have h2 : (F.data.getD fn []).length = F.length := hF.2 fn hfn
  by_cases h : b = i ∧ i < F.length
  · rw [if_pos ⟨rfl, h.1, h1, by rw [h2]; exact h.2⟩, if_pos h]
  · rw [if_neg (fun hh => h ⟨hh.2.1, by rw [← h2]; exact hh.2.2.2⟩), if_neg h]

theorem same_row_put (fn i : Nat) (v : ℚ) (F G : fvec_t) (h : same_row fn F G) :
    same_row fn (F.put fn i v) (G.put fn i v) := by
  obtain ⟨h1, h2, h3, h4, h5, h6⟩ := h
  refine ⟨put_shaped _ _ _ _ h1, put_shaped _ _ _ _ h2, h3, h4, h5, fun b => ?_⟩
  rw [get_put_row F h1 fn i b v h4, get_put_row G h2 fn i b v h5, h3, h6 b]

theorem positive_slope_snd (fft : fvec_t) (fn : Nat) (r : ℚ) (rem : Nat) :
    ∀ (bin : Nat) (F G : fvec_t),
      (positive_slope fft fn r rem bin F).2 = (positive_slope fft fn r rem bin G).2 := by
  induction rem with
  | zero => intro bin F G; rfl
  | succ rem ih =>
    intro bin F G
    rw [positive_slope_succ, positive_slope_succ]
    split_ifs with hbr
    · rfl
    · exact ih _ _ _

theorem positive_slope_same_row (fft : fvec_t) (fn : Nat) (r : ℚ) (rem : Nat) :
    ∀ (bin : Nat) (F G : fvec_t), same_row fn F G →
      same_row fn (positive_slope fft fn r rem bin F).1 (positive_slope fft fn r rem bin G).1 := by
  induction rem with
  | zero => intro bin F G h; exact h
  | succ rem ih =>
    intro bin F G h
    rw [positive_slope_succ, positive_slope_succ]
    split_ifs with hbr
    · exact same_row_put _ _ _ _ _ h
    · exact ih _ _ _ (same_row_put _ _ _ _ _ h)

theorem negative_slope_same_row (fft : fvec_t) (fn : Nat) (d : ℚ) (rem : Nat) :
    ∀ (bin : Nat) (F G : fvec_t), same_row fn F G →
      same_row fn (negative_slope fft fn d rem bin F) (negative_slope fft fn d rem bin G) := by
  induction rem with
  | zero => intro bin F G h; exact h
  | succ rem ih =>
    intro bin F G h
    rw [negative_slope_succ, negative_slope_succ, h.2.2.2.2.2 bin]
    split_ifs with hbr
    · exact same_row_put _ _ _ _ _ h
    · exact ih _ _ _ (same_row_put _ _ _ _ _ h)

/-- The row that `build_filter` leaves for the filter `fn` depends on the table only
through the row `fn` it finds. -/
theorem build_filter_same_row (fft : fvec_t) (win_s fn : Nat) (F G : fvec_t)
    (h : same_row fn F G) :
    same_row fn (build_filter fft win_s fn F) (build_filter fft win_s fn G) := by
  have e2 : (rise_part fft win_s fn F).2 = (rise_part fft win_s fn G).2 :=
    positive_slope_snd fft fn (riseInc fn) _ _ F G
  have e1 : same_row fn (rise_part fft win_s fn F).1 (rise_part fft win_s fn G).1 :=
    positive_slope_same_row fft fn (riseInc fn) _ _ F G h
  unfold build_filter
  rw [e2]
  exact negative_slope_same_row fft fn (downInc fn) _ _ _ _ e1

/-- C13: with fewer than 40 rows the function fills a prefix of the full bank: every
entry of each row `i < n` it writes equals the entry of row `i` that the same call produces
for a 40-row table with the same sample rate and bin count; the result keeps its `n` rows, and
the test of the warning (`allFilters > n_filters`) is true. -/
theorem C13_prefix_of_full_bank (bintofreq : ℚ → ℚ → ℚ → ℚ) (fb fb40 : fvec_t)
    (samplerate freq_min freq_max : ℚ)
    (hn : fb.channels < 40) (h40 : fb40.channels = 40) (hl : fb40.length = fb.length)
    (i b : Nat) (hi : i < fb.channels) :
    (aubio_filterbank_set_mel_coeffs bintofreq fb samplerate freq_min freq_max).get i b =
      (aubio_filterbank_set_mel_coeffs bintofreq fb40 samplerate freq_min freq_max).get i b ∧
    (aubio_filterbank_set_mel_coeffs bintofreq fb samplerate freq_min freq_max).channels =
      fb.channels ∧
    not_enough_filters fb = true := by
  refine ⟨?_, (set_mel_coeffs_dims bintofreq fb samplerate freq_min freq_max).2.2, ?_⟩
  · unfold aubio_filterbank_set_mel_coeffs
    rw [build_loop_row _ _ _ _ i b hi, build_loop_row _ _ _ _ i b (by rw [h40]; omega), hl]
    obtain ⟨a1, a2, a3, a4⟩ := build_loop_frame (fft_freqs bintofreq samplerate fb.length)
      fb.length (fvec_zeros fb) i
    obtain ⟨c1, c2, c3, c4⟩ := build_loop_frame (fft_freqs bintofreq samplerate fb.length)
      fb.length (fvec_zeros fb40) i
    have hrel : same_row i
        (forUpTo (fun fn filters =>
          build_filter (fft_freqs bintofreq samplerate fb.length) fb.length fn filters) i
          (fvec_zeros fb))
        (forUpTo (fun fn filters =>
          build_filter (fft_freqs bintofreq samplerate fb.length) fb.length fn filters) i
          (fvec_zeros fb40)) := by
      refine ⟨a1 (fvec_zeros_shaped _), c1 (fvec_zeros_shaped _), ?_, ?_, ?_, fun k => ?_⟩
      · rw [a2, c2]
        exact hl.symm
      · rw [a3]
        exact hi
      · rw [c3]
        show i < fb40.channels
        omega
      · rw [a4 i k (le_refl _), c4 i k (le_refl _), fvec_zeros_get, fvec_zeros_get]
    exact (build_filter_same_row _ _ i _ _ hrel).2.2.2.2.2 b
  · unfold not_enough_filters
    exact decide_eq_true (show allFilters > fb.channels from hn)

theorem C13_prefix_of_full_bank_witness :
    (aubio_filterbank_set_mel_coeffs aubio_bintofreq (new_fvec 8 13) 480 0 0).get 0 3 =
      (aubio_filterbank_set_mel_coeffs aubio_bintofreq (new_fvec 8 40) 480 0 0).get 0 3 ∧
    (aubio_filterbank_set_mel_coeffs aubio_bintofreq (new_fvec 8 13) 480 0 0).channels =
      (new_fvec 8 13).channels ∧
    not_enough_filters (new_fvec 8 13) = true :=
  C13_prefix_of_full_bank aubio_bintofreq (new_fvec 8 13) (new_fvec 8 40) 480 0 0
    (by decide) rfl rfl 0 3 (by decide)

/-! ## The bins that the loops can reach -/

theorem get_put_other_bin (s : fvec_t) (c i c2 i2 : Nat) (v : ℚ) (h : i2 ≠ i) :
    (s.put c i v).get c2 i2 = s.get c2 i2 := by
  rw [get_put, if_neg (fun hh => h hh.2.1)]

theorem skip_first_bounds (fft : fvec_t) (fn : Nat) (rem : Nat) :
    ∀ bin, bin ≤ skip_first fft fn rem bin ∧ skip_first fft fn rem bin ≤ bin + rem := by
  induction rem with
  | zero => intro bin; exact ⟨le_refl _, le_refl _⟩
  | succ rem ih =>
    intro bin
    rw [skip_first_succ]
    split_ifs with hc
    · exact ⟨le_refl _, by omega⟩
    · obtain ⟨a1, a2⟩ := ih (bin + 1)
      exact ⟨by omega, by omega⟩

/-- When no bin of the scan satisfies the test, the scan leaves `bin` at its bound. -/
theorem skip_first_runs_off (fft : fvec_t) (fn : Nat) (rem : Nat) :
    ∀ bin, (∀ b, bin ≤ b → b < bin + rem →
        ¬ (fft.get 0 b ≤ lower_freqs.get 0 fn ∧ fft.get 0 (b + 1) > lower_freqs.get 0 fn)) →
      skip_first fft fn rem bin = bin + rem := by
  induction rem with
  | zero => intro bin _; rfl
  | succ rem ih =>
    intro bin h
    rw [skip_first_succ, if_neg (h bin (le_refl _) (by omega)),
      ih (bin + 1) (fun b hb1 hb2 => h b (by omega) (by omega))]
    omega

theorem positive_slope_bounds (fft : fvec_t) (fn : Nat) (r : ℚ) (rem : Nat) :
    ∀ (bin : Nat) (F : fvec_t),
      bin ≤ (positive_slope fft fn r rem bin F).2 ∧
      (positive_slope fft fn r rem bin F).2 ≤ bin + rem := by
  induction rem with
  | zero => intro bin F; exact ⟨le_refl _, le_refl _⟩
  | succ rem ih =>
    intro bin F
    rw [positive_slope_succ]
    split_ifs with hbr
    · exact ⟨le_refl _, by show bin ≤ bin + (rem + 1); omega⟩
    · obtain ⟨a1, a2⟩ := ih (bin + 1) (F.put fn bin ((fft.get 0 bin - lower_freqs.get 0 fn) * r))
      exact ⟨by omega, by omega⟩

/-- The positive slope loop writes no bin below `bin` and none from `bin + rem` on. -/
theorem positive_slope_outside (fft : fvec_t) (fn : Nat) (r : ℚ) (rem : Nat) :
    ∀ (bin : Nat) (F : fvec_t) (c b : Nat), (b < bin ∨ bin + rem ≤ b) →
      (positive_slope fft fn r rem bin F).1.get c b = F.get c b := by
  induction rem with
  | zero => intro bin F c b _; rfl
  | succ rem ih =>
    intro bin F c b hb
    rw [positive_slope_succ]
    split_ifs with hbr
    · exact get_put_other_bin _ _ _ _ _ _ (by omega)
    · rw [ih (bin + 1) _ c b (by omega)]
      exact get_put_other_bin _ _ _ _ _ _ (by omega)

/-- The negative slope loop writes no bin below `bin` and none from `bin + rem` on. -/
theorem negative_slope_outside (fft : fvec_t) (fn : Nat) (d : ℚ) (rem : Nat) :
    ∀ (bin : Nat) (F : fvec_t) (c b : Nat), (b < bin ∨ bin + rem ≤ b) →
      (negative_slope fft fn d rem bin F).get c b = F.get c b := by
  induction rem with
  | zero => intro bin F c b _; rfl
  | succ rem ih =>
    intro bin F c b hb
    rw [negative_slope_succ]
    split_ifs with hbr
    · exact get_put_other_bin _ _ _ _ _ _ (by omega)
    · rw [ih (bin + 1) _ c b (by omega)]
      exact get_put_other_bin _ _ _ _ _ _ (by omega)

theorem first_bin_bounds (fft : fvec_t) (win_s fn : Nat) (h1 : 1 ≤ win_s)
    (h2 : win_s < 4294967296) :
    1 ≤ first_bin fft win_s fn ∧ first_bin fft win_s fn ≤ win_s := by
  obtain ⟨-, a2⟩ := skip_first_bounds fft fn (win_s - 1 - 0) 0
  unfold first_bin
  rw [u32_sub_one win_s h1 h2, u32_add_one _ (by omega)]
  omega

theorem rise_part_bounds (fft : fvec_t) (win_s fn : Nat) (F : fvec_t) (h1 : 1 ≤ win_s)
    (h2 : win_s < 4294967296) :
    1 ≤ (rise_part fft win_s fn F).2 ∧ (rise_part fft win_s fn F).2 ≤ win_s := by
  obtain ⟨f1, f2⟩ := first_bin_bounds fft win_s fn h1 h2
  obtain ⟨a1, a2⟩ := positive_slope_bounds fft fn (riseInc fn)
    (u32_sub win_s 1 - first_bin fft win_s fn) (first_bin fft win_s fn) F
  rw [u32_sub_one win_s h1 h2] at a1 a2
  unfold rise_part
  rw [u32_sub_one win_s h1 h2]
  omega

/-- Building a filter never writes bin 0 nor the last bin, as long as `win_s + 1` fits in a
`uint_t`. -/
theorem build_filter_untouched (fft : fvec_t) (win_s fn : Nat) (F : fvec_t) (h1 : 1 ≤ win_s)
    (h2 : win_s < 4294967295) (c b : Nat) (hb : b = 0 ∨ win_s - 1 ≤ b) :
    (build_filter fft win_s fn F).get c b = F.get c b := by
  have h3 : win_s < 4294967296 := by omega
  obtain ⟨f1, f2⟩ := first_bin_bounds fft win_s fn h1 h3
  obtain ⟨r1, r2⟩ := rise_part_bounds fft win_s fn F h1 h3
  have e1 : (rise_part fft win_s fn F).1.get c b = F.get c b := by
    unfold rise_part
    rw [u32_sub_one win_s h1 h3]
    exact positive_slope_outside fft fn (riseInc fn) _ _ F c b (by omega)
  unfold build_filter
  rw [u32_sub_one win_s h1 h3, u32_add_one _ (by omega),
    negative_slope_outside fft fn (downInc fn) _ _ _ c b (by omega), e1]

theorem build_loop_untouched (fft : fvec_t) (win_s : Nat) (F : fvec_t) (h1 : 1 ≤ win_s)
    (h2 : win_s < 4294967295) (c b : Nat) (hb : b = 0 ∨ win_s - 1 ≤ b) (n : Nat) :
    (forUpTo (fun fn filters => build_filter fft win_s fn filters) n F).get c b = F.get c b := by
  induction n with
  | zero => rfl
  | succ n ih =>
    rw [forUpTo_succ, build_filter_untouched fft win_s n _ h1 h2 c b hb, ih]

/-- C19, amended: for every sample rate, every bin count with `1 <= numBins <= 2^32 - 2`
(so that `numBins + 1` fits in a `uint_t`), every row count <= 40 and every filter `i`, the
weights `W[i][0]` and `W[i][numBins-1]` are 0. -/
theorem C19_first_and_last_column (bintofreq : ℚ → ℚ → ℚ → ℚ) (fb : fvec_t)
    (samplerate freq_min freq_max : ℚ) (i : Nat)
    (_hrows : fb.channels ≤ 40) (h1 : 1 ≤ fb.length) (h2 : fb.length < 4294967295) :
    (aubio_filterbank_set_mel_coeffs bintofreq fb samplerate freq_min freq_max).get i 0 = 0 ∧
    (aubio_filterbank_set_mel_coeffs bintofreq fb samplerate freq_min freq_max).get i
      (fb.length - 1) = 0 := by
  unfold aubio_filterbank_set_mel_coeffs
  constructor
  · rw [build_loop_untouched _ _ _ h1 h2 i 0 (Or.inl rfl), fvec_zeros_get]
  · rw [build_loop_untouched _ _ _ h1 h2 i (fb.length - 1) (Or.inr (le_refl _)), fvec_zeros_get]

theorem C19_first_and_last_column_witness :
    (aubio_filterbank_set_mel_coeffs aubio_bintofreq (new_fvec 64 40) 44100 0 0).get 0 0 = 0 ∧
    (aubio_filterbank_set_mel_coeffs aubio_bintofreq (new_fvec 64 40) 44100 0 0).get 0
      ((new_fvec 64 40).length - 1) = 0 :=
  C19_first_and_last_column aubio_bintofreq (new_fvec 64 40) 44100 0 0 0 (by decide) (by decide)
    (by decide)

/-! ## A table of `2^32 - 1` bins -/

theorem forUpTo_zero {σ : Type} (body : Nat → σ → σ) (s : σ) : forUpTo body 0 s = s := rfl

/-- With `win_s = 2^32 - 1` and a scan that never finds its bin, `bin` is `win_s` after the
first `bin++` and wraps to 0 at the second one: the negative slope loop then starts at bin 0
and writes it. -/
theorem build_filter_wraps (fft : fvec_t) (fn : Nat) (F : fvec_t) (hF : F.shaped)
    (hfn : fn < F.channels) (hlen : F.length = 4294967295)
    (hno : ∀ b, ¬ (fft.get 0 b ≤ lower_freqs.get 0 fn ∧
      fft.get 0 (b + 1) > lower_freqs.get 0 fn)) :
    (build_filter fft 4294967295 fn F).get fn 0 =
      F.get fn 0 + (upper_freqs.get 0 fn - fft.get 0 0) * downInc fn := by
  have hlast : u32_sub 4294967295 1 = 4294967294 := by decide
  have hinc1 : u32_add (0 + 4294967294) 1 = 4294967295 := by decide
  have hinc2 : u32_add 4294967295 1 = 0 := by decide
  have hsub1 : 4294967294 - 4294967295 = 0 := by decide
  have hsub2 : 4294967294 - 0 = 4294967293 + 1 := by decide
  have hfb : first_bin fft 4294967295 fn = 4294967295 := by
    unfold first_bin
    rw [hlast, Nat.sub_zero, skip_first_runs_off fft fn 4294967294 0 (fun b _ _ => hno b), hinc1]
  have hrp : rise_part fft 4294967295 fn F = (F, 4294967295) := by
    unfold rise_part
    rw [hfb, hlast, hsub1]
    rfl
  unfold build_filter
  rw [hrp, hlast]
  simp only []
  rw [hinc2, hsub2, negative_slope_succ]
  split_ifs with hbr
  · rw [get_put_shaped F hF fn 0 fn 0 _ hfn (by omega), if_pos ⟨rfl, rfl⟩]
  · rw [negative_slope_outside fft fn (downInc fn) _ _ _ fn 0 (by omega),
      get_put_shaped F hF fn 0 fn 0 _ hfn (by omega), if_pos ⟨rfl, rfl⟩]

theorem fft_100_below (b : Nat) :
    (fft_freqs aubio_bintofreq 100 4294967295).get 0 b ≤ 100 := by
  rw [fft_freqs_get]
  split_ifs with hb
  · unfold aubio_bintofreq
    have h1 : (b : ℚ) ≤ ((4294967295 : Nat) : ℚ) := by exact_mod_cast le_of_lt hb
    have h2 : (0 : ℚ) < ((4294967295 : Nat) : ℚ) := by norm_num
    rw [div_le_iff₀ h2]
    linarith
  · norm_num

/-- At 100 Hz on `2^32 - 1` bins every bin frequency is below `lower[0]`; filter 0 then
gets the weight `upper[0] * downInc` at bin 0. -/
theorem wrap_100_value (freq_min freq_max : ℚ) :
    (aubio_filterbank_set_mel_coeffs aubio_bintofreq (new_fvec 4294967295 1) 100 freq_min
      freq_max).get 0 0 =
      266.66663332 * (2 / (266.66663332 - 133.3333) / (266.66663332 - 199.99996666)) := by
  have hb := build_filter_wraps (fft_freqs aubio_bintofreq 100 4294967295) 0
    (fvec_zeros (new_fvec 4294967295 1)) (fvec_zeros_shaped _) (by decide) rfl
    (by
      intro b hh
      have h1 := fft_100_below (b + 1)
      have h2 := hh.2
      rw [lower_0_value] at h2
      have h3 : (100 : ℚ) < 133.3333 := by norm_num
      linarith)
  have hd : downInc 0 = 2 / (266.66663332 - 133.3333) / (266.66663332 - 199.99996666) := by
    unfold downInc
    rw [triangle_heights_get, if_pos (by decide), lower_0_value, center_0_value, upper_0_value]
  have h0 : (fft_freqs aubio_bintofreq 100 4294967295).get 0 0 = 0 := by
    rw [fft_freqs_get, if_pos (by decide)]
    norm_num [aubio_bintofreq]
  have hch : (new_fvec 4294967295 1).channels = 0 + 1 := rfl
  have hlen : (new_fvec 4294967295 1).length = 4294967295 := rfl
  unfold aubio_filterbank_set_mel_coeffs
  simp only []
  rw [hch, hlen, forUpTo_succ, forUpTo_zero, hb, fvec_zeros_get, h0, hd, upper_0_value]
  norm_num

/-- C19, as it is worded for every `numBins >= 1`, fails at `numBins = 2^32 - 1`: at
100 Hz the scan of filter 0 finds no bin, `bin` is `2^32 - 1` after the first `bin++` and wraps
to 0 at the second, and the negative slope loop writes a non-zero weight into `W[0][0]`. -/
theorem C19_wrap_counterexample :
    (aubio_filterbank_set_mel_coeffs aubio_bintofreq (new_fvec 4294967295 1) 100 0 0).get 0 0
      ≠ 0 := by
  rw [wrap_100_value]
  norm_num

/-! ## Filters beyond the bin grid -/

theorem positive_slope_zero (fft : fvec_t) (fn : Nat) (r : ℚ) (bin : Nat) (F : fvec_t) :
    positive_slope fft fn r 0 bin F = (F, bin) := rfl

theorem negative_slope_zero (fft : fvec_t) (fn : Nat) (d : ℚ) (bin : Nat) (F : fvec_t) :
    negative_slope fft fn d 0 bin F = F := rfl

/-- When the scan of filter `fn` finds no bin, and `win_s + 1` fits in a `uint_t`, both
slope loops are entered with `bin` beyond their bound and the table is left as it is. -/
theorem build_filter_beyond (fft : fvec_t) (win_s fn : Nat) (h1 : 1 ≤ win_s)
    (h2 : win_s < 4294967295)
    (hno : ∀ b, b + 2 ≤ win_s → ¬ (fft.get 0 b ≤ lower_freqs.get 0 fn ∧
      fft.get 0 (b + 1) > lower_freqs.get 0 fn)) (F : fvec_t) :
    rise_part fft win_s fn F = (F, win_s) ∧ build_filter fft win_s fn F = F := by
  have hlast : u32_sub win_s 1 = win_s - 1 := u32_sub_one win_s h1 (by omega)
  have hfb : first_bin fft win_s fn = win_s := by
    unfold first_bin
    rw [hlast, Nat.sub_zero,
      skip_first_runs_off fft fn (win_s - 1) 0 (fun b _ hb => hno b (by omega)),
      u32_add_one _ (by omega)]
    omega
  have hrp : rise_part fft win_s fn F = (F, win_s) := by
    unfold rise_part
    rw [hfb, hlast, show win_s - 1 - win_s = 0 by omega, positive_slope_zero]
  refine ⟨hrp, ?_⟩
  unfold build_filter
  rw [hrp, hlast]
  simp only []
  rw [u32_add_one _ (by omega), show win_s - 1 - (win_s + 1) = 0 by omega, negative_slope_zero]

/-- C20, amended: for every filter `i < min(rowCount, 40)` and every bin count with
`1 <= numBins <= 2^32 - 2`, if no bin index `b <= numBins - 2` satisfies
`binFreq[b] <= lower[i] < binFreq[b+1]`, then every entry of row `i` is 0 after the call, the
positive slope loop returns the table as it found it (with `bin = numBins`), and building the
filter leaves any table unchanged: neither slope loop writes. -/
theorem C20_beyond_grid (bintofreq : ℚ → ℚ → ℚ → ℚ) (fb : fvec_t)
    (samplerate freq_min freq_max : ℚ) (i : Nat)
    (hi : i < min fb.channels 40) (h1 : 1 ≤ fb.length) (h2 : fb.length < 4294967295)
    (hnone : ∀ b : Nat, b + 2 ≤ fb.length →
      ¬ (bintofreq b samplerate fb.length ≤ lower_freqs.get 0 i ∧
        lower_freqs.get 0 i < bintofreq (b + 1 : Nat) samplerate fb.length)) :
    (∀ b, (aubio_filterbank_set_mel_coeffs bintofreq fb samplerate freq_min freq_max).get i b
      = 0) ∧
    (∀ F, rise_part (fft_freqs bintofreq samplerate fb.length) fb.length i F = (F, fb.length)) ∧
    (∀ F, build_filter (fft_freqs bintofreq samplerate fb.length) fb.length i F = F) := by
  have hic : i < fb.channels := lt_of_lt_of_le hi (min_le_left _ _)
  have hno : ∀ b, b + 2 ≤ fb.length →
      ¬ ((fft_freqs bintofreq samplerate fb.length).get 0 b ≤ lower_freqs.get 0 i ∧
        (fft_freqs bintofreq samplerate fb.length).get 0 (b + 1) > lower_freqs.get 0 i) := by
    intro b hb
    rw [fft_freqs_get, fft_freqs_get, if_pos (by omega), if_pos (by omega)]
    exact hnone b hb
  have hb := build_filter_beyond (fft_freqs bintofreq samplerate fb.length) fb.length i h1 h2 hno
  refine ⟨fun b => ?_, fun F => (hb F).1, fun F => (hb F).2⟩
  unfold aubio_filterbank_set_mel_coeffs
  rw [build_loop_row _ _ _ _ i b hic, (hb _).2,
    (build_loop_frame _ _ _ i).2.2.2 i b (le_refl _), fvec_zeros_get]

theorem C20_beyond_grid_witness :
    (∀ b, (aubio_filterbank_set_mel_coeffs aubio_bintofreq (new_fvec 8 40) 100 0 0).get 0 b
      = 0) ∧
    (∀ F, rise_part (fft_freqs aubio_bintofreq 100 (new_fvec 8 40).length)
      (new_fvec 8 40).length 0 F = (F, (new_fvec 8 40).length)) ∧
    (∀ F, build_filter (fft_freqs aubio_bintofreq 100 (new_fvec 8 40).length)
      (new_fvec 8 40).length 0 F = F) :=
  C20_beyond_grid aubio_bintofreq (new_fvec 8 40) 100 0 0 0 (by decide) (by decide) (by decide)
    (by
      intro b hb hh
      have hb8 : b + 2 ≤ 8 := hb
      have h2 := hh.2
      rw [lower_0_value] at h2
      have hq : ((b + 1 : Nat) : ℚ) ≤ 8 := by exact_mod_cast (show b + 1 ≤ 8 by omega)
      have hlen : (((new_fvec 8 40).length : Nat) : ℚ) = 8 := by norm_num [new_fvec]
      rw [hlen] at h2
      unfold aubio_bintofreq at h2
      have h3 : (100 : ℚ) * ((b + 1 : Nat) : ℚ) / 8 ≤ 100 := by
        rw [div_le_iff₀ (by norm_num)]
        linarith
      have h4 : (100 : ℚ) < 133.3333 := by norm_num
      linarith)

/-- C20, as it is worded for every `numBins >= 1`, fails at `numBins = 2^32 - 1` and
100 Hz: no bin index `b <= numBins - 2` satisfies `binFreq[b] <= lower[0] < binFreq[b+1]`, yet
the entry `W[0][0]` of row 0 is not 0. -/
theorem C20_wrap_counterexample :
    (∀ b : Nat, b + 2 ≤ 4294967295 →
      ¬ (aubio_bintofreq b 100 ((4294967295 : Nat) : ℚ) ≤ lower_freqs.get 0 0 ∧
        lower_freqs.get 0 0 <
          aubio_bintofreq (b + 1 : Nat) 100 ((4294967295 : Nat) : ℚ))) ∧
    (aubio_filterbank_set_mel_coeffs aubio_bintofreq (new_fvec 4294967295 1) 100 0 0).get 0 0
      ≠ 0 := by
  constructor
  · intro b hb hh
    have h1 := fft_100_below (b + 1)
    rw [fft_freqs_get, if_pos (by omega)] at h1
    have h2 := hh.2
    rw [lower_0_value] at h2
    have h3 : (100 : ℚ) < 133.3333 := by norm_num
    exact absurd (lt_of_lt_of_le h2 h1) (not_lt.mpr (le_of_lt h3))
  · rw [wrap_100_value]
    norm_num

/-! ## The `+=` of the negative slope -/

theorem negative_slope_assign_succ (fft : fvec_t) (fn : Nat) (d : ℚ) (rem bin : Nat)
    (F : fvec_t) :
    negative_slope_assign fft fn d (rem + 1) bin F =
      if fft.get 0 (bin + 1) > upper_freqs.get 0 fn then
        F.put fn bin ((upper_freqs.get 0 fn - fft.get 0 bin) * d)
      else
        negative_slope_assign fft fn d rem (bin + 1)
          (F.put fn bin ((upper_freqs.get 0 fn - fft.get 0 bin) * d)) := rfl

/-- On a row that holds 0 from `bin` on, the negative slope loop stores the same values
with `=` as with `+=`. -/
theorem negative_slope_assign_eq (fft : fvec_t) (fn : Nat) (d : ℚ) (rem : Nat) :
    ∀ (bin : Nat) (F : fvec_t), (∀ b, bin ≤ b → F.get fn b = 0) →
      negative_slope_assign fft fn d rem bin F = negative_slope fft fn d rem bin F := by
  induction rem with
  | zero => intro bin F _; rfl
  | succ rem ih =>
    intro bin F h
    rw [negative_slope_assign_succ, negative_slope_succ, h bin (le_refl _), zero_add]
    split_ifs with hbr
    · rfl
    · refine ih (bin + 1) _ (fun b hb => ?_)
      rw [get_put_other_bin _ _ _ _ _ _ (by omega)]
      exact h b (by omega)

/-- The positive slope loop writes no bin after the one where it stops. -/
theorem positive_slope_after (fft : fvec_t) (fn : Nat) (r : ℚ) (rem : Nat) :
    ∀ (bin : Nat) (F : fvec_t) (c b : Nat), (positive_slope fft fn r rem bin F).2 < b →
      (positive_slope fft fn r rem bin F).1.get c b = F.get c b := by
  induction rem with
  | zero => intro bin F c b _; rfl
  | succ rem ih =>
    intro bin F c b
    rw [positive_slope_succ]
    split_ifs with hbr
    · intro hb
      exact get_put_other_bin _ _ _ _ _ _ (by have : bin < b := hb; omega)
    · intro hb
      have hle := (positive_slope_bounds fft fn r rem (bin + 1)
        (F.put fn bin ((fft.get 0 bin - lower_freqs.get 0 fn) * r))).1
      rw [ih (bin + 1) _ c b hb]
      exact get_put_other_bin _ _ _ _ _ _ (by omega)

/-- The positive slope loop of a filter has written no bin at or after the bin where its
negative slope loop starts: the two loops never write the same bin. -/
theorem rise_part_after (fft : fvec_t) (win_s fn : Nat) (F : fvec_t) (h1 : 1 ≤ win_s)
    (h2 : win_s < 4294967296) (c b : Nat)
    (hb : u32_add (rise_part fft win_s fn F).2 1 ≤ b) :
    (rise_part fft win_s fn F).1.get c b = F.get c b := by
  have hdef : rise_part fft win_s fn F = positive_slope fft fn (riseInc fn)
      (win_s - 1 - first_bin fft win_s fn) (first_bin fft win_s fn) F := by
    unfold rise_part
    rw [u32_sub_one win_s h1 h2]
  obtain ⟨f1, f2⟩ := first_bin_bounds fft win_s fn h1 h2
  obtain ⟨a1, a2⟩ := positive_slope_bounds fft fn (riseInc fn)
    (win_s - 1 - first_bin fft win_s fn) (first_bin fft win_s fn) F
  have hafter := positive_slope_after fft fn (riseInc fn)
    (win_s - 1 - first_bin fft win_s fn) (first_bin fft win_s fn) F c
  rw [← hdef] at a1 a2 hafter
  by_cases hw : (rise_part fft win_s fn F).2 + 1 < 4294967296
  · rw [u32_add_one _ hw] at hb
    exact hafter b (by omega)
  · have hfb : first_bin fft win_s fn = win_s := by omega
    rw [hdef, hfb, show win_s - 1 - win_s = 0 by omega, positive_slope_zero]

/-- One filter built on a row that is still 0: `=` and `+=` give the same table. -/
theorem build_filter_assign_eq (fft : fvec_t) (win_s fn : Nat) (F : fvec_t) (h1 : 1 ≤ win_s)
    (h2 : win_s < 4294967296) (hrow : ∀ b, F.get fn b = 0) :
    build_filter_assign fft win_s fn F = build_filter fft win_s fn F := by
  unfold build_filter_assign build_filter
  exact negative_slope_assign_eq fft fn (downInc fn)
    (u32_sub win_s 1 - u32_add (rise_part fft win_s fn F).2 1)
    (u32_add (rise_part fft win_s fn F).2 1) (rise_part fft win_s fn F).1
    (fun b hb => by rw [rise_part_after fft win_s fn F h1 h2 fn b hb]; exact hrow b)

theorem set_mel_coeffs_assign_eq (bintofreq : ℚ → ℚ → ℚ → ℚ) (fb : fvec_t)
    (samplerate freq_min freq_max : ℚ) (h1 : 1 ≤ fb.length) (h2 : fb.length < 4294967296) :
    set_mel_coeffs_assign bintofreq fb samplerate freq_min freq_max =
      aubio_filterbank_set_mel_coeffs bintofreq fb samplerate freq_min freq_max := by
  have key : ∀ n,
      forUpTo (fun fn filters =>
        build_filter_assign (fft_freqs bintofreq samplerate fb.length) fb.length fn filters) n
        (fvec_zeros fb) =
      forUpTo (fun fn filters =>
        build_filter (fft_freqs bintofreq samplerate fb.length) fb.length fn filters) n
        (fvec_zeros fb) := by
    intro n
    induction n with
    | zero => rw [forUpTo_zero, forUpTo_zero]
    | succ n ih =>
      rw [forUpTo_succ, forUpTo_succ, ih]
      exact build_filter_assign_eq (fft_freqs bintofreq samplerate fb.length) fb.length n
        (forUpTo (fun fn filters =>
          build_filter (fft_freqs bintofreq samplerate fb.length) fb.length fn filters) n
          (fvec_zeros fb)) h1 h2 (fun b => by
          rw [(build_loop_frame (fft_freqs bintofreq samplerate fb.length) fb.length
            (fvec_zeros fb) n).2.2.2 n b (le_refl _), fvec_zeros_get])
  exact key fb.channels

/-- C17, negated: there is no input (bin mapping, table with `1 <= numBins < 2^32`,
sample rate) for which replacing the `+=` of the negative slope loop by `=` changes the
weight matrix. -/
theorem C17_no_shared_bin_counterexample :
    ¬ ∃ (bintofreq : ℚ → ℚ → ℚ → ℚ) (fb : fvec_t) (samplerate freq_min freq_max : ℚ),
      1 ≤ fb.length ∧ fb.length < 4294967296 ∧
      set_mel_coeffs_assign bintofreq fb samplerate freq_min freq_max ≠
        aubio_filterbank_set_mel_coeffs bintofreq fb samplerate freq_min freq_max := by
  rintro ⟨bintofreq, fb, samplerate, freq_min, freq_max, h1, h2, hne⟩
  exact hne (set_mel_coeffs_assign_eq bintofreq fb samplerate freq_min freq_max h1 h2)

/-- C17, amended: for every input with `1 <= numBins < 2^32`, replacing the `+=` of the
negative slope loop by `=` gives the same weight matrix, because the positive slope loop of a
filter has written no bin at or after the bin where its negative slope loop starts. -/
theorem C17_assignment_suffices (bintofreq : ℚ → ℚ → ℚ → ℚ) (fb : fvec_t)
    (samplerate freq_min freq_max : ℚ) (h1 : 1 ≤ fb.length) (h2 : fb.length < 4294967296) :
    set_mel_coeffs_assign bintofreq fb samplerate freq_min freq_max =
      aubio_filterbank_set_mel_coeffs bintofreq fb samplerate freq_min freq_max ∧
    ∀ fn F c b,
      u32_add (rise_part (fft_freqs bintofreq samplerate fb.length) fb.length fn F).2 1 ≤ b →
      (rise_part (fft_freqs bintofreq samplerate fb.length) fb.length fn F).1.get c b =
        F.get c b :=
  ⟨set_mel_coeffs_assign_eq bintofreq fb samplerate freq_min freq_max h1 h2,
    fun fn F c b hb =>
      rise_part_after (fft_freqs bintofreq samplerate fb.length) fb.length fn F h1 h2 c b hb⟩

theorem C17_assignment_suffices_witness :
    set_mel_coeffs_assign aubio_bintofreq (new_fvec 64 40) 44100 0 0 =
      aubio_filterbank_set_mel_coeffs aubio_bintofreq (new_fvec 64 40) 44100 0 0 :=
  (C17_assignment_suffices aubio_bintofreq (new_fvec 64 40) 44100 0 0 (by decide)
    (by decide)).1

/-! ## Scenario D: 16000 Hz on 512 bins -/

theorem freqs_41_lt : freqs.get 0 41 < 15968.75 := by
  rw [freqs_get, if_neg (by decide), if_pos (by decide), lastlinearCF_eq]
  norm_num [lowestFrequency, linearSpacing, logSpacing]

theorem freqs_0_pos : (0 : ℚ) < freqs.get 0 0 := by
  rw [freqs_get, if_pos (by decide)]
  norm_num [lowestFrequency, linearSpacing]

/-- Consecutive anchors are more than one bin width (31.25 Hz) apart. -/
theorem freqs_gap (k : Nat) (hk : k < 41) : freqs.get 0 k + 31.25 < freqs.get 0 (k + 1) := by
  by_cases h12 : k < 12
  · rw [freqs_get, freqs_get, if_pos (by omega), if_pos (by omega)]
    push_cast
    have : (0 : ℚ) ≤ (k : ℚ) := Nat.cast_nonneg k
    norm_num [linearSpacing]
    linarith
  · have hk' : freqs.get 0 k = lastlinearCF * logSpacing ^ (k - 12) := by
      by_cases e : k = 12
      · subst e
        rw [freqs_get, if_pos (by decide), lastlinearCF_eq]
        norm_num
      · rw [freqs_get, if_neg (by omega), if_pos (by omega)]
    have hk1 : freqs.get 0 (k + 1) = lastlinearCF * logSpacing ^ (k - 12) * logSpacing := by
      rw [freqs_get, if_neg (by omega), if_pos (by omega),
        show k + 1 - 12 = (k - 12) + 1 by omega, pow_succ, mul_assoc]
    rw [hk', hk1]
    have h1 : (1 : ℚ) ≤ logSpacing ^ (k - 12) := one_le_pow₀ (le_of_lt logSpacing_gt_one)
    have h2 : (933 : ℚ) < lastlinearCF := by
      rw [lastlinearCF_eq]
      norm_num [lowestFrequency, linearSpacing]
    have h3 : (933 : ℚ) < lastlinearCF * logSpacing ^ (k - 12) := by nlinarith
    generalize lastlinearCF * logSpacing ^ (k - 12) = X at h3 ⊢
    have h4 : logSpacing = 1.0711703 := rfl
    rw [h4]
    norm_num
    linarith

/-- Between two frequencies more than 31.25 Hz apart there is a bin of the 512-bin grid at
16000 Hz. -/
theorem grid_point_16000 (lo hi : ℚ) (h0 : 0 ≤ lo) (hgap : lo + 31.25 < hi)
    (htop : hi < 15968.75) :
    ∃ b : Nat, b < 512 ∧ lo < aubio_bintofreq b 16000 ((512 : Nat) : ℚ) ∧
      aubio_bintofreq b 16000 ((512 : Nat) : ℚ) ≤ hi := by
  have hpos : (0 : ℚ) ≤ hi / 31.25 := by
    apply div_nonneg
    · linarith
    · norm_num
  have h1 : ((⌊hi / 31.25⌋₊ : Nat) : ℚ) ≤ hi / 31.25 := Nat.floor_le hpos
  have h2 : hi / 31.25 < ((⌊hi / 31.25⌋₊ : Nat) : ℚ) + 1 := Nat.lt_floor_add_one _
  have e : ∀ b : Nat, aubio_bintofreq b 16000 ((512 : Nat) : ℚ) = 31.25 * (b : ℚ) := by
    intro b
    unfold aubio_bintofreq
    norm_num
    ring
  rw [le_div_iff₀ (by norm_num)] at h1
  rw [div_lt_iff₀ (by norm_num)] at h2
  refine ⟨⌊hi / 31.25⌋₊, ?_, ?_, ?_⟩
  · have : ((⌊hi / 31.25⌋₊ : Nat) : ℚ) < 512 := by linarith
    exact_mod_cast this
  · rw [e]
    linarith
  · rw [e]
    linarith

/-- On a bin grid fine enough for filter `i` (the conditions of `build_filter_spec`), a
weight of row `i` that is not 0 belongs to a bin whose frequency lies in
`(lower[i], upper[i]]`. -/
theorem row_support (bintofreq : ℚ → ℚ → ℚ → ℚ) (fb : fvec_t)
    (samplerate freq_min freq_max : ℚ) (i : Nat)
    (hw : fb.length < 4294967296) (hic : i < fb.channels)
    (hmono : ∀ a b : Nat, a < b → b < fb.length →
      bintofreq a samplerate fb.length < bintofreq b samplerate fb.length)
    (hfirst : bintofreq (0 : Nat) samplerate fb.length ≤ lower_freqs.get 0 i)
    (hrise : ∃ b : Nat, b < fb.length ∧
      lower_freqs.get 0 i < bintofreq b samplerate fb.length ∧
      bintofreq b samplerate fb.length ≤ center_freqs.get 0 i)
    (hfall : ∃ b : Nat, b < fb.length ∧
      center_freqs.get 0 i < bintofreq b samplerate fb.length ∧
      bintofreq b samplerate fb.length ≤ upper_freqs.get 0 i)
    (hlast : upper_freqs.get 0 i < bintofreq (fb.length - 1 : Nat) samplerate fb.length)
    (b : Nat) (hb : b < fb.length)
    (hne : (aubio_filterbank_set_mel_coeffs bintofreq fb samplerate freq_min freq_max).get i b
      ≠ 0) :
    lower_freqs.get 0 i < bintofreq b samplerate fb.length ∧
      bintofreq b samplerate fb.length ≤ upper_freqs.get 0 i := by
  have hg : ∀ k, k < fb.length →
      (fft_freqs bintofreq samplerate fb.length).get 0 k = bintofreq k samplerate fb.length := by
    intro k hk
    rw [fft_freqs_get, if_pos hk]
  obtain ⟨br, hbr, hr1, hr2⟩ := hrise
  obtain ⟨bf, hbf, hf1, hf2⟩ := hfall
  obtain ⟨z1, z2, z3, z4⟩ := build_loop_frame (fft_freqs bintofreq samplerate fb.length)
    fb.length (fvec_zeros fb) i
  have hspec := build_filter_spec (fft_freqs bintofreq samplerate fb.length) fb.length i
    (forUpTo (fun fn filters =>
      build_filter (fft_freqs bintofreq samplerate fb.length) fb.length fn filters) i
      (fvec_zeros fb)) hw (z1 (fvec_zeros_shaped fb)) (by rw [z3]; exact hic) (by rw [z2]; rfl)
    (by
      intro a c hac hc
      rw [hg a (by omega), hg c hc]
      exact hmono a c hac hc)
    (by rw [hg 0 (by omega)]; exact hfirst)
    ⟨br, hbr, by rw [hg br hbr]; exact ⟨hr1, hr2⟩⟩
    ⟨bf, hbf, by rw [hg bf hbf]; exact ⟨hf1, hf2⟩⟩
    (by rw [hg _ (by omega)]; exact hlast) b hb
  unfold aubio_filterbank_set_mel_coeffs at hne
  rw [build_loop_row _ _ _ _ i b hic, hspec, z4 i b (le_refl _), fvec_zeros_get, hg b hb] at hne
  by_cases cA : lower_freqs.get 0 i < bintofreq b samplerate fb.length ∧
      bintofreq b samplerate fb.length ≤ center_freqs.get 0 i
  · exact ⟨cA.1, by linarith [cA.2]⟩
  · rw [if_neg cA] at hne
    by_cases cB : center_freqs.get 0 i < bintofreq b samplerate fb.length ∧
        bintofreq b samplerate fb.length ≤ upper_freqs.get 0 i
    · exact ⟨by linarith [cB.1], cB.2⟩
    · rw [if_neg cB] at hne
      exact absurd rfl hne

/-- The row of a filter on a bin grid fine enough for it, entry by entry: the rising
values on the bins in `(lower, center]`, the falling values on the bins in `(center, upper]`,
0 elsewhere. -/
theorem sampled_row (bintofreq : ℚ → ℚ → ℚ → ℚ) (fb : fvec_t)
    (samplerate freq_min freq_max : ℚ) (i : Nat)
    (hw : fb.length < 4294967296)
    (hi : i < min fb.channels 40)
    (hmono : ∀ a b : Nat, a < b → b < fb.length →
      bintofreq a samplerate fb.length < bintofreq b samplerate fb.length)
    (hfirst : bintofreq (0 : Nat) samplerate fb.length ≤ lower_freqs.get 0 i)
    (hrise : ∃ b : Nat, b < fb.length ∧
      lower_freqs.get 0 i < bintofreq b samplerate fb.length ∧
      bintofreq b samplerate fb.length ≤ center_freqs.get 0 i)
    (hfall : ∃ b : Nat, b < fb.length ∧
      center_freqs.get 0 i < bintofreq b samplerate fb.length ∧
      bintofreq b samplerate fb.length ≤ upper_freqs.get 0 i)
    (hlast : upper_freqs.get 0 i < bintofreq (fb.length - 1 : Nat) samplerate fb.length)
    (b : Nat) (hb : b < fb.length) :
    (aubio_filterbank_set_mel_coeffs bintofreq fb samplerate freq_min freq_max).get i b =
      if lower_freqs.get 0 i < bintofreq b samplerate fb.length ∧
          bintofreq b samplerate fb.length ≤ center_freqs.get 0 i then
        (bintofreq b samplerate fb.length - lower_freqs.get 0 i) *
          (2 / (upper_freqs.get 0 i - lower_freqs.get 0 i)) /
          (center_freqs.get 0 i - lower_freqs.get 0 i)
      else if center_freqs.get 0 i < bintofreq b samplerate fb.length ∧
          bintofreq b samplerate fb.length ≤ upper_freqs.get 0 i then
        (upper_freqs.get 0 i - bintofreq b samplerate fb.length) *
          (2 / (upper_freqs.get 0 i - lower_freqs.get 0 i)) /
          (upper_freqs.get 0 i - center_freqs.get 0 i)
      else 0 := by
  have hic : i < fb.channels := lt_of_lt_of_le hi (min_le_left _ _)
  have hi40 : i < 40 := lt_of_lt_of_le hi (min_le_right _ _)
  have hg : ∀ k, k < fb.length →
      (fft_freqs bintofreq samplerate fb.length).get 0 k = bintofreq k samplerate fb.length := by
    intro k hk
    rw [fft_freqs_get, if_pos hk]
  obtain ⟨br, hbr, hr1, hr2⟩ := hrise
  obtain ⟨bf, hbf, hf1, hf2⟩ := hfall
  obtain ⟨z1, z2, z3, z4⟩ := build_loop_frame (fft_freqs bintofreq samplerate fb.length)
    fb.length (fvec_zeros fb) i
  have hrow : ∀ k, (forUpTo (fun fn filters =>
      build_filter (fft_freqs bintofreq samplerate fb.length) fb.length fn filters) i
      (fvec_zeros fb)).get i k = 0 := by
    intro k
    rw [z4 i k (le_refl _), fvec_zeros_get]
  have hspec := build_filter_spec (fft_freqs bintofreq samplerate fb.length) fb.length i
    (forUpTo (fun fn filters =>
      build_filter (fft_freqs bintofreq samplerate fb.length) fb.length fn filters) i
      (fvec_zeros fb)) hw (z1 (fvec_zeros_shaped fb)) (by rw [z3]; exact hic) (by rw [z2]; rfl)
    (by
      intro a c hac hc
      rw [hg a (by omega), hg c hc]
      exact hmono a c hac hc)
    (by rw [hg 0 (by omega)]; exact hfirst)
    ⟨br, hbr, by rw [hg br hbr]; exact ⟨hr1, hr2⟩⟩
    ⟨bf, hbf, by rw [hg bf hbf]; exact ⟨hf1, hf2⟩⟩
    (by rw [hg _ (by omega)]; exact hlast) b hb
  unfold aubio_filterbank_set_mel_coeffs
  rw [build_loop_row _ _ _ _ i b hic, hspec, hrow, hg b hb]
  unfold riseInc downInc
  rw [triangle_heights_get, if_pos hi40, zero_add, mul_div_assoc, mul_div_assoc]

/-- The support of every row at 16000 Hz on 512 bins, for the zero-filled 40-row table. -/
theorem scenario_D_support (freq_min freq_max : ℚ) (i b : Nat) (hi : i < 40) (hb : b < 512)
    (hne : (aubio_filterbank_set_mel_coeffs aubio_bintofreq (new_fvec 512 40) 16000 freq_min
      freq_max).get i b ≠ 0) :
    lower_freqs.get 0 i < aubio_bintofreq b 16000 ((512 : Nat) : ℚ) ∧
      aubio_bintofreq b 16000 ((512 : Nat) : ℚ) ≤ upper_freqs.get 0 i := by
  have hlo : lower_freqs.get 0 i = freqs.get 0 i := by rw [lower_freqs_get, if_pos hi]
  have hce : center_freqs.get 0 i = freqs.get 0 (i + 1) := by rw [center_freqs_get, if_pos hi]
  have hup : upper_freqs.get 0 i = freqs.get 0 (i + 2) := by rw [upper_freqs_get, if_pos hi]
  have hpos : (0 : ℚ) < freqs.get 0 i := by
    rcases Nat.eq_zero_or_pos i with h | h
    · rw [h]
      exact freqs_0_pos
    · exact lt_trans freqs_0_pos (freqs_strict_mono 0 i h (by omega))
  have htop : freqs.get 0 (i + 2) < 15968.75 := by
    rcases Nat.lt_or_ge (i + 2) 41 with h | h
    · exact lt_trans (freqs_strict_mono (i + 2) 41 h (by decide)) freqs_41_lt
    · have e : i + 2 = 41 := by omega
      rw [e]
      exact freqs_41_lt
  have hg1 := freqs_gap i (by omega)
  have hg2 := freqs_gap (i + 1) (by omega)
  have hstep := freqs_step (i + 1) (by omega)
  exact row_support aubio_bintofreq (new_fvec 512 40) 16000 freq_min freq_max i (by decide)
    (show i < 40 from hi)
    (by
      intro a c hac _
      have : (a : ℚ) < c := by exact_mod_cast hac
      show aubio_bintofreq a 16000 ((512 : Nat) : ℚ) < aubio_bintofreq c 16000 ((512 : Nat) : ℚ)
      unfold aubio_bintofreq
      norm_num
      linarith)
    (by
      rw [hlo]
      show aubio_bintofreq ((0 : Nat) : ℚ) 16000 ((512 : Nat) : ℚ) ≤ _
      unfold aubio_bintofreq
      norm_num
      exact le_of_lt hpos)
    (by
      rw [hlo, hce]
      exact grid_point_16000 _ _ (le_of_lt hpos) hg1 (by linarith))
    (by
      rw [hce, hup]
      exact grid_point_16000 _ _ (by linarith) hg2 htop)
    (by
      rw [hup]
      show _ < aubio_bintofreq ((511 : Nat) : ℚ) 16000 ((512 : Nat) : ℚ)
      unfold aubio_bintofreq
      norm_num
      linarith)
    b hb hne

/-- Two tables of the same shape give the same result. -/
theorem set_mel_coeffs_congr (bintofreq : ℚ → ℚ → ℚ → ℚ) (fb fb2 : fvec_t)
    (samplerate freq_min freq_max : ℚ) (hc : fb2.channels = fb.channels)
    (hl : fb2.length = fb.length) :
    aubio_filterbank_set_mel_coeffs bintofreq fb2 samplerate freq_min freq_max =
      aubio_filterbank_set_mel_coeffs bintofreq fb samplerate freq_min freq_max := by
  unfold aubio_filterbank_set_mel_coeffs
  rw [fvec_zeros_congr fb2 fb hc hl, hc, hl]

/-- C11: Scenario D. At 16000 Hz with 512 bins (`binFreq[b] = 16000*b/512 = 31.25*b`) and
40 rows, for every filter `i < 40` and every bin `b < 512`, a weight `W[i][b]` that is not 0
has `lower[i] < binFreq[b] <= upper[i]`: no entry is non-zero outside the bins whose
frequency falls inside the edges of its filter. -/
theorem C11_scenario_D (fb : fvec_t) (freq_min freq_max : ℚ) (i b : Nat)
    (hrows : fb.channels = 40) (hbins : fb.length = 512) (hi : i < 40) (hb : b < 512)
    (hne : (aubio_filterbank_set_mel_coeffs aubio_bintofreq fb 16000 freq_min freq_max).get i b
      ≠ 0) :
    lower_freqs.get 0 i < aubio_bintofreq b 16000 ((512 : Nat) : ℚ) ∧
      aubio_bintofreq b 16000 ((512 : Nat) : ℚ) ≤ upper_freqs.get 0 i := by
  have e : aubio_filterbank_set_mel_coeffs aubio_bintofreq fb 16000 freq_min freq_max =
      aubio_filterbank_set_mel_coeffs aubio_bintofreq (new_fvec 512 40) 16000 freq_min
        freq_max :=
    set_mel_coeffs_congr aubio_bintofreq (new_fvec 512 40) fb 16000 freq_min freq_max hrows hbins
  rw [e] at hne
  exact scenario_D_support freq_min freq_max i b hi hb hne

theorem C11_scenario_D_witness :
    (aubio_filterbank_set_mel_coeffs aubio_bintofreq (new_fvec 512 40) 16000 0 0).get 0 5 ≠ 0 ∧
    lower_freqs.get 0 0 < aubio_bintofreq (5 : Nat) 16000 ((512 : Nat) : ℚ) ∧
    aubio_bintofreq (5 : Nat) 16000 ((512 : Nat) : ℚ) ≤ upper_freqs.get 0 0 := by
  have hne : (aubio_filterbank_set_mel_coeffs aubio_bintofreq (new_fvec 512 40) 16000 0
      0).get 0 5 ≠ 0 := by
    have h := sampled_row aubio_bintofreq (new_fvec 512 40) 16000 0 0 0 (by decide) (by decide)
      (by
        intro a b hab _
        have : (a : ℚ) < b := by exact_mod_cast hab
        simp only [aubio_bintofreq, new_fvec]
        norm_num
        linarith)
      (by rw [lower_0_value]; norm_num [aubio_bintofreq])
      ⟨5, by decide, by rw [lower_0_value, center_0_value]; norm_num [aubio_bintofreq, new_fvec]⟩
      ⟨7, by decide, by rw [center_0_value, upper_0_value]; norm_num [aubio_bintofreq, new_fvec]⟩
      (by rw [upper_0_value]; norm_num [aubio_bintofreq, new_fvec])
      5 (by decide)
    rw [h, lower_0_value, center_0_value, upper_0_value]
    norm_num [aubio_bintofreq, new_fvec]
  exact ⟨hne, C11_scenario_D (new_fvec 512 40) 0 0 0 5 rfl rfl (by decide) (by decide) hne⟩

/-! ## Checked reads and writes inside the shape -/

theorem bind_some_eq {α β : Type} (a : α) (f : α → Option β) : (some a).bind f = f a := rfl

theorem get_chk_some (s : fvec_t) (hs : s.shaped) (c i : Nat) (hc : c < s.channels)
    (hi : i < s.length) : s.get_chk c i = some (s.get c i) := by
  unfold fvec_t.get_chk
  rw [if_pos ⟨by rw [hs.1]; exact hc, by rw [hs.2 c hc]; exact hi⟩]

theorem get_chk_none (s : fvec_t) (hs : s.shaped) (c i : Nat) (hc : c < s.channels)
    (hi : s.length ≤ i) : s.get_chk c i = none := by
  unfold fvec_t.get_chk
  rw [if_neg (fun h => by have := h.2; rw [hs.2 c hc] at this; omega)]

theorem put_chk_some (s : fvec_t) (hs : s.shaped) (c i : Nat) (v : ℚ) (hc : c < s.channels)
    (hi : i < s.length) : s.put_chk c i v = some (s.put c i v) := by
  unfold fvec_t.put_chk
  rw [if_pos ⟨by rw [hs.1]; exact hc, by rw [hs.2 c hc]; exact hi⟩]

theorem forUpTo_chk_zero {σ : Type} (body : Nat → σ → Option σ) (s : σ) :
    forUpTo_chk body 0 s = some s := rfl

theorem forUpTo_chk_succ {σ : Type} (body : Nat → σ → Option σ) (n : Nat) (s : σ) :
    forUpTo_chk body (n + 1) s = (forUpTo_chk body n s).bind (body n) := rfl

/-- A checked counting loop whose body succeeds on every state that satisfies an invariant
returns the state that the unchecked loop computes. -/
theorem forUpTo_chk_sim {σ : Type} (P : σ → Prop) (body : Nat → σ → σ)
    (body_chk : Nat → σ → Option σ) (n : Nat)
    (h : ∀ i s, i < n → P s → body_chk i s = some (body i s) ∧ P (body i s))
    (s0 : σ) (h0 : P s0) :
    ∀ m, m ≤ n → forUpTo_chk body_chk m s0 = some (forUpTo body m s0) ∧ P (forUpTo body m s0) := by
  intro m
  induction m with
  | zero => intro _; exact ⟨rfl, h0⟩
  | succ m ih =>
    intro hm
    obtain ⟨e, p⟩ := ih (by omega)
    obtain ⟨e2, p2⟩ := h m _ (by omega) p
    rw [forUpTo_chk_succ, e, bind_some_eq, forUpTo_succ, e2]
    exact ⟨rfl, p2⟩

/-! ## The buffers of the checked run are those of the unchecked one -/

theorem freqs_chk_eq : freqs_chk = some freqs := by
  have h1 := (forUpTo_chk_sim (fun s : fvec_t => s.shaped ∧ s.length = 42 ∧ s.channels = 1)
    (fun fn freqs => freqs.put 0 fn (lowestFrequency + fn * linearSpacing))
    (fun fn freqs => freqs.put_chk 0 fn (lowestFrequency + fn * linearSpacing))
    linearFilters
    (fun i s hi hs =>
      ⟨put_chk_some s hs.1 0 i _ (by rw [hs.2.2]; decide)
        (by rw [hs.2.1]; have : i < 13 := hi; omega),
        put_shaped _ _ _ _ hs.1, hs.2.1, hs.2.2⟩)
    (new_fvec (allFilters + 2) 1) ⟨new_fvec_shaped _ _, rfl, rfl⟩ linearFilters (le_refl _)).1
  have h2 : freqs_linear.get_chk 0 (linearFilters - 1) = some lastlinearCF :=
    get_chk_some freqs_linear freqs_linear_shaped.1 0 (linearFilters - 1)
      (by rw [freqs_linear_shaped.2.2]; decide) (by rw [freqs_linear_shaped.2.1]; decide)
  have h3 := (forUpTo_chk_sim (fun s : fvec_t => s.shaped ∧ s.length = 42 ∧ s.channels = 1)
    (fun fn freqs => freqs.put 0 (fn + linearFilters) (lastlinearCF * POW logSpacing (fn + 1)))
    (fun fn freqs =>
      freqs.put_chk 0 (fn + linearFilters) (lastlinearCF * POW logSpacing (fn + 1)))
    (logFilters + 2)
    (fun i s hi hs =>
      ⟨put_chk_some s hs.1 0 (i + linearFilters) _ (by rw [hs.2.2]; decide)
        (by
          rw [hs.2.1]
          have h29 : i < 27 + 2 := hi
          have h13 : linearFilters = 13 := rfl
          omega),
        put_shaped _ _ _ _ hs.1, hs.2.1, hs.2.2⟩)
    freqs_linear freqs_linear_shaped (logFilters + 2) (le_refl _)).1
  unfold freqs_chk
  have e1 : forUpTo (fun fn freqs => freqs.put 0 fn (lowestFrequency + fn * linearSpacing))
      linearFilters (new_fvec (allFilters + 2) 1) = freqs_linear := rfl
  rw [e1] at h1
  rw [h1, bind_some_eq, h2, bind_some_eq, h3]
  rfl

theorem freqs_get_chk (k : Nat) (hk : k < 42) : freqs.get_chk 0 k = some (freqs.get 0 k) :=
  get_chk_some freqs freqs_shaped.1 0 k (by rw [freqs_shaped.2.2]; decide)
    (by rw [freqs_shaped.2.1]; exact hk)

theorem edges_chk_eq : edges_chk freqs = some edges ∧
    (edges.lower_freqs.shaped ∧ edges.lower_freqs.length = 40 ∧ edges.lower_freqs.channels = 1) ∧
    (edges.center_freqs.shaped ∧ edges.center_freqs.length = 40 ∧
      edges.center_freqs.channels = 1) ∧
    (edges.upper_freqs.shaped ∧ edges.upper_freqs.length = 40 ∧
      edges.upper_freqs.channels = 1) := by
  have h := forUpTo_chk_sim
    (fun e : edges_t =>
      (e.lower_freqs.shaped ∧ e.lower_freqs.length = 40 ∧ e.lower_freqs.channels = 1) ∧
      (e.center_freqs.shaped ∧ e.center_freqs.length = 40 ∧ e.center_freqs.channels = 1) ∧
      (e.upper_freqs.shaped ∧ e.upper_freqs.length = 40 ∧ e.upper_freqs.channels = 1))
    (fun fn e =>
      ({ lower_freqs := e.lower_freqs.put 0 fn (freqs.get 0 fn),
         center_freqs := e.center_freqs.put 0 fn (freqs.get 0 (fn + 1)),
         upper_freqs := e.upper_freqs.put 0 fn (freqs.get 0 (fn + 2)) } : edges_t))
    (fun fn e =>
      (freqs.get_chk 0 fn).bind fun lo =>
      (e.lower_freqs.put_chk 0 fn lo).bind fun lower =>
      (freqs.get_chk 0 (fn + 1)).bind fun ce =>
      (e.center_freqs.put_chk 0 fn ce).bind fun center =>
      (freqs.get_chk 0 (fn + 2)).bind fun up =>
      (e.upper_freqs.put_chk 0 fn up).bind fun upper =>
      some { lower_freqs := lower, center_freqs := center, upper_freqs := upper })
    allFilters
    (fun i e hi he => by
      have hi40 : i < 40 := hi
      obtain ⟨⟨l1, l2, l3⟩, ⟨c1, c2, c3⟩, ⟨u1, u2, u3⟩⟩ := he
      constructor
      · simp only []
        rw [freqs_get_chk i (by omega), bind_some_eq,
          put_chk_some _ l1 0 i _ (by rw [l3]; decide) (by rw [l2]; exact hi40), bind_some_eq,
          freqs_get_chk (i + 1) (by omega), bind_some_eq,
          put_chk_some _ c1 0 i _ (by rw [c3]; decide) (by rw [c2]; exact hi40), bind_some_eq,
          freqs_get_chk (i + 2) (by omega), bind_some_eq,
          put_chk_some _ u1 0 i _ (by rw [u3]; decide) (by rw [u2]; exact hi40), bind_some_eq]
      · exact ⟨⟨put_shaped _ _ _ _ l1, l2, l3⟩, ⟨put_shaped _ _ _ _ c1, c2, c3⟩,
          ⟨put_shaped _ _ _ _ u1, u2, u3⟩⟩)
    { lower_freqs := new_fvec allFilters 1,
      center_freqs := new_fvec allFilters 1,
      upper_freqs := new_fvec allFilters 1 }
    ⟨⟨new_fvec_shaped _ _, rfl, rfl⟩, ⟨new_fvec_shaped _ _, rfl, rfl⟩,
      ⟨new_fvec_shaped _ _, rfl, rfl⟩⟩ allFilters (le_refl _)
  exact h

theorem center_freqs_shaped :
    center_freqs.shaped ∧ center_freqs.length = 40 ∧ center_freqs.channels = 1 :=
  edges_chk_eq.2.2.1

theorem upper_freqs_shaped :
    upper_freqs.shaped ∧ upper_freqs.length = 40 ∧ upper_freqs.channels = 1 :=
  edges_chk_eq.2.2.2

theorem triangle_heights_shaped :
    triangle_heights.shaped ∧ triangle_heights.length = 40 ∧ triangle_heights.channels = 1 :=
  fill_shaped (fun fn => 2 / (upper_freqs.get 0 fn - lower_freqs.get 0 fn)) 0 allFilters
    (new_fvec allFilters 1) (new_fvec_shaped _ _)

theorem lower_get_chk (fn : Nat) (hfn : fn < 40) :
    lower_freqs.get_chk 0 fn = some (lower_freqs.get 0 fn) :=
  get_chk_some lower_freqs lower_freqs_shaped.1 0 fn (by rw [lower_freqs_shaped.2.2]; decide)
    (by rw [lower_freqs_shaped.2.1]; exact hfn)

theorem center_get_chk (fn : Nat) (hfn : fn < 40) :
    center_freqs.get_chk 0 fn = some (center_freqs.get 0 fn) :=
  get_chk_some center_freqs center_freqs_shaped.1 0 fn
    (by rw [center_freqs_shaped.2.2]; decide) (by rw [center_freqs_shaped.2.1]; exact hfn)

theorem upper_get_chk (fn : Nat) (hfn : fn < 40) :
    upper_freqs.get_chk 0 fn = some (upper_freqs.get 0 fn) :=
  get_chk_some upper_freqs upper_freqs_shaped.1 0 fn
    (by rw [upper_freqs_shaped.2.2]; decide) (by rw [upper_freqs_shaped.2.1]; exact hfn)

theorem heights_get_chk (fn : Nat) (hfn : fn < 40) :
    triangle_heights.get_chk 0 fn = some (triangle_heights.get 0 fn) :=
  get_chk_some triangle_heights triangle_heights_shaped.1 0 fn
    (by rw [triangle_heights_shaped.2.2]; decide)
    (by rw [triangle_heights_shaped.2.1]; exact hfn)

/-- The edge buffers have 40 entries: a read at an index from 40 on is out of range. -/
theorem lower_get_chk_none (fn : Nat) (hfn : 40 ≤ fn) : lower_freqs.get_chk 0 fn = none :=
  get_chk_none lower_freqs lower_freqs_shaped.1 0 fn (by rw [lower_freqs_shaped.2.2]; decide)
    (by rw [lower_freqs_shaped.2.1]; exact hfn)

/-- The three divisors of the function are not 0. -/
theorem divisors_ne_zero (fn : Nat) (hfn : fn < 40) :
    upper_freqs.get 0 fn - lower_freqs.get 0 fn ≠ 0 ∧
    center_freqs.get 0 fn - lower_freqs.get 0 fn ≠ 0 ∧
    upper_freqs.get 0 fn - center_freqs.get 0 fn ≠ 0 := by
  rw [lower_freqs_get, center_freqs_get, upper_freqs_get, if_pos hfn, if_pos hfn, if_pos hfn]
  have h1 := freqs_step fn (by omega)
  have h2 := freqs_step (fn + 1) (by omega)
  refine ⟨?_, ?_, ?_⟩ <;> intro h <;> linarith

theorem div_chk_some (a b : ℚ) (hb : b ≠ 0) : div_chk a b = some (a / b) := by
  unfold div_chk
  rw [if_neg hb]

theorem triangle_heights_chk_eq : triangle_heights_chk edges = some triangle_heights := by
  have hU : edges.upper_freqs = upper_freqs := rfl
  have hL : edges.lower_freqs = lower_freqs := rfl
  have h := (forUpTo_chk_sim (fun s : fvec_t => s.shaped ∧ s.length = 40 ∧ s.channels = 1)
    (fun fn h => h.put 0 fn (2 / (upper_freqs.get 0 fn - lower_freqs.get 0 fn)))
    (fun fn h =>
      (edges.upper_freqs.get_chk 0 fn).bind fun up =>
      (edges.lower_freqs.get_chk 0 fn).bind fun lo =>
      (div_chk 2 (up - lo)).bind fun height =>
      h.put_chk 0 fn height)
    allFilters
    (fun i s hi hs => by
      have hi40 : i < 40 := hi
      constructor
      · simp only []
        rw [hU, hL, upper_get_chk i hi40, bind_some_eq, lower_get_chk i hi40, bind_some_eq,
          div_chk_some _ _ (divisors_ne_zero i hi40).1, bind_some_eq,
          put_chk_some _ hs.1 0 i _ (by rw [hs.2.2]; decide) (by rw [hs.2.1]; exact hi40)]
      · exact ⟨put_shaped _ _ _ _ hs.1, hs.2.1, hs.2.2⟩)
    (new_fvec allFilters 1) ⟨new_fvec_shaped _ _, rfl, rfl⟩ allFilters (le_refl _)).1
  exact h

theorem fft_freqs_chk_eq (bintofreq : ℚ → ℚ → ℚ → ℚ) (samplerate : ℚ) (win_s : Nat) :
    fft_freqs_chk bintofreq samplerate win_s = some (fft_freqs bintofreq samplerate win_s) := by
  have h := (forUpTo_chk_sim (fun s : fvec_t => s.shaped ∧ s.length = win_s ∧ s.channels = 1)
    (fun bin t => t.put 0 bin (bintofreq bin samplerate win_s))
    (fun bin t => t.put_chk 0 bin (bintofreq bin samplerate win_s))
    win_s
    (fun i s hi hs =>
      ⟨put_chk_some s hs.1 0 i _ (by rw [hs.2.2]; decide) (by rw [hs.2.1]; exact hi),
        put_shaped _ _ _ _ hs.1, hs.2.1, hs.2.2⟩)
    (new_fvec win_s 1) ⟨new_fvec_shaped _ _, rfl, rfl⟩ win_s (le_refl _)).1
  exact h

/-! ## The checked loops inside the table -/

theorem skip_first_chk_succ (fft lower : fvec_t) (fn rem bin : Nat) :
    skip_first_chk fft lower fn (rem + 1) bin =
      (fft.get_chk 0 bin).bind fun f0 =>
      (lower.get_chk 0 fn).bind fun lo =>
      if f0 ≤ lo then
        (fft.get_chk 0 (bin + 1)).bind fun f1 =>
        (lower.get_chk 0 fn).bind fun lo1 =>
        if f1 > lo1 then some bin else skip_first_chk fft lower fn rem (bin + 1)
      else
        skip_first_chk fft lower fn rem (bin + 1) := rfl

theorem positive_slope_chk_succ (fft lower center : fvec_t) (fn : Nat) (r : ℚ) (rem bin : Nat)
    (F : fvec_t) :
    positive_slope_chk fft lower center fn r (rem + 1) bin F =
      (fft.get_chk 0 bin).bind fun f0 =>
      (lower.get_chk 0 fn).bind fun lo =>
      (F.put_chk fn bin ((f0 - lo) * r)).bind fun written =>
      (fft.get_chk 0 (bin + 1)).bind fun f1 =>
      (center.get_chk 0 fn).bind fun ce =>
      if f1 > ce then some (written, bin)
      else positive_slope_chk fft lower center fn r rem (bin + 1) written := rfl

theorem negative_slope_chk_succ (fft upper : fvec_t) (fn : Nat) (d : ℚ) (rem bin : Nat)
    (F : fvec_t) :
    negative_slope_chk fft upper fn d (rem + 1) bin F =
      (F.get_chk fn bin).bind fun old =>
      (upper.get_chk 0 fn).bind fun up =>
      (fft.get_chk 0 bin).bind fun f0 =>
      (F.put_chk fn bin (old + (up - f0) * d)).bind fun written =>
      (fft.get_chk 0 (bin + 1)).bind fun f1 =>
      (upper.get_chk 0 fn).bind fun up1 =>
      if f1 > up1 then some written
      else negative_slope_chk fft upper fn d rem (bin + 1) written := rfl

/-- The scan for the first bin reads `fft[bin .. bin + rem]` and `lower[fn]`: with these in
range it returns what the unchecked scan returns. -/
theorem skip_first_chk_eq (fft : fvec_t) (hfft : fft.shaped) (hch : 0 < fft.channels)
    (fn : Nat) (hfn : fn < 40) (rem : Nat) :
    ∀ bin, (rem = 0 ∨ bin + rem < fft.length) →
      skip_first_chk fft lower_freqs fn rem bin = some (skip_first fft fn rem bin) := by
  induction rem with
  | zero => intro bin _; rfl
  | succ rem ih =>
    intro bin h
    have hb : bin + (rem + 1) < fft.length := by
      rcases h with h | h
      · omega
      · exact h
    rw [skip_first_chk_succ, get_chk_some fft hfft 0 bin hch (by omega), bind_some_eq,
      lower_get_chk fn hfn, bind_some_eq, skip_first_succ]
    by_cases h1 : fft.get 0 bin ≤ lower_freqs.get 0 fn
    · rw [if_pos h1, get_chk_some fft hfft 0 (bin + 1) hch (by omega), bind_some_eq,
        bind_some_eq]
      by_cases h2 : fft.get 0 (bin + 1) > lower_freqs.get 0 fn
      · rw [if_pos h2, if_pos ⟨h1, h2⟩]
      · rw [if_neg h2, if_neg (fun hh => h2 hh.2)]
        exact ih (bin + 1) (by omega)
    · rw [if_neg h1, if_neg (fun hh => h1 hh.1)]
      exact ih (bin + 1) (by omega)

/-- The positive slope loop reads `fft[bin .. bin + rem]` and writes the bins
`bin .. bin + rem - 1` of row `fn`: with these in range it returns what the unchecked loop
returns. -/
theorem positive_slope_chk_eq (fft : fvec_t) (hfft : fft.shaped) (hch : 0 < fft.channels)
    (fn : Nat) (hfn : fn < 40) (r : ℚ) (rem : Nat) :
    ∀ (bin : Nat) (F : fvec_t), F.shaped → fn < F.channels →
      (rem = 0 ∨ (bin + rem < fft.length ∧ bin + rem ≤ F.length)) →
      positive_slope_chk fft lower_freqs center_freqs fn r rem bin F =
        some (positive_slope fft fn r rem bin F) := by
  induction rem with
  | zero => intro bin F _ _ _; rfl
  | succ rem ih =>
    intro bin F hF hfF h
    have hb : bin + (rem + 1) < fft.length ∧ bin + (rem + 1) ≤ F.length := by
      rcases h with h | h
      · omega
      · exact h
    rw [positive_slope_chk_succ, get_chk_some fft hfft 0 bin hch (by omega), bind_some_eq,
      lower_get_chk fn hfn, bind_some_eq, put_chk_some F hF fn bin _ hfF (by omega),
      bind_some_eq, get_chk_some fft hfft 0 (bin + 1) hch (by omega), bind_some_eq,
      center_get_chk fn hfn, bind_some_eq, positive_slope_succ]
    by_cases h1 : fft.get 0 (bin + 1) > center_freqs.get 0 fn
    · rw [if_pos h1, if_pos h1]
    · rw [if_neg h1, if_neg h1]
      exact ih (bin + 1) _ (put_shaped _ _ _ _ hF) hfF (by rw [put_length]; omega)

/-- The negative slope loop, likewise. -/
theorem negative_slope_chk_eq (fft : fvec_t) (hfft : fft.shaped) (hch : 0 < fft.channels)
    (fn : Nat) (hfn : fn < 40) (d : ℚ) (rem : Nat) :
    ∀ (bin : Nat) (F : fvec_t), F.shaped → fn < F.channels →
      (rem = 0 ∨ (bin + rem < fft.length ∧ bin + rem ≤ F.length)) →
      negative_slope_chk fft upper_freqs fn d rem bin F =
        some (negative_slope fft fn d rem bin F) := by
  induction rem with
  | zero => intro bin F _ _ _; rfl
  | succ rem ih =>
    intro bin F hF hfF h
    have hb : bin + (rem + 1) < fft.length ∧ bin + (rem + 1) ≤ F.length := by
      rcases h with h | h
      · omega
      · exact h
    rw [negative_slope_chk_succ, get_chk_some F hF fn bin hfF (by omega), bind_some_eq,
      upper_get_chk fn hfn, bind_some_eq, get_chk_some fft hfft 0 bin hch (by omega),
      bind_some_eq, put_chk_some F hF fn bin _ hfF (by omega), bind_some_eq,
      get_chk_some fft hfft 0 (bin + 1) hch (by omega), bind_some_eq, bind_some_eq,
      negative_slope_succ]
    by_cases h1 : fft.get 0 (bin + 1) > upper_freqs.get 0 fn
    · rw [if_pos h1, if_pos h1]
    · rw [if_neg h1, if_neg h1]
      exact ih (bin + 1) _ (put_shaped _ _ _ _ hF) hfF (by rw [put_length]; omega)

/-- Building one of the 40 filters in a table that has its row, with at least one bin:
every access is in range, no divisor is 0, and the result is that of `build_filter`. -/
theorem build_filter_chk_eq (fft : fvec_t) (hfft : fft.shaped) (hch : 0 < fft.channels)
    (win_s : Nat) (hlen : fft.length = win_s) (h1 : 1 ≤ win_s) (h2 : win_s < 4294967296)
    (fn : Nat) (hfn : fn < 40) (F : fvec_t) (hF : F.shaped) (hFl : F.length = win_s)
    (hfF : fn < F.channels) :
    build_filter_chk fft edges triangle_heights win_s fn F =
      some (build_filter fft win_s fn F) := by
  have hL : edges.lower_freqs = lower_freqs := rfl
  have hC : edges.center_freqs = center_freqs := rfl
  have hU : edges.upper_freqs = upper_freqs := rfl
  have hlast : u32_sub win_s 1 = win_s - 1 := u32_sub_one win_s h1 h2
  obtain ⟨d1, d2, d3⟩ := divisors_ne_zero fn hfn
  have hs := skip_first_chk_eq fft hfft hch fn hfn (u32_sub win_s 1 - 0) 0
    (Or.inr (by rw [hlast, hlen]; omega))
  have hfb : u32_add (skip_first fft fn (u32_sub win_s 1 - 0) 0) 1 = first_bin fft win_s fn := by
    unfold first_bin
    rfl
  have hr : triangle_heights.get 0 fn / (center_freqs.get 0 fn - lower_freqs.get 0 fn) =
      riseInc fn := by
    unfold riseInc
    rfl
  have hd : triangle_heights.get 0 fn / (upper_freqs.get 0 fn - center_freqs.get 0 fn) =
      downInc fn := by
    unfold downInc
    rfl
  have hp : positive_slope_chk fft lower_freqs center_freqs fn (riseInc fn)
      (u32_sub win_s 1 - first_bin fft win_s fn) (first_bin fft win_s fn) F =
      some (rise_part fft win_s fn F) := by
    unfold rise_part
    exact positive_slope_chk_eq fft hfft hch fn hfn (riseInc fn)
      (u32_sub win_s 1 - first_bin fft win_s fn) (first_bin fft win_s fn) F hF hfF
      (by rw [hlast, hlen, hFl]; omega)
  obtain ⟨q1, q2, q3, -⟩ := positive_slope_frame fft fn (riseInc fn)
    (u32_sub win_s 1 - first_bin fft win_s fn) (first_bin fft win_s fn) F
  have hrp : positive_slope fft fn (riseInc fn) (u32_sub win_s 1 - first_bin fft win_s fn)
      (first_bin fft win_s fn) F = rise_part fft win_s fn F := by
    unfold rise_part
    rfl
  rw [hrp] at q1 q2 q3
  have hn := negative_slope_chk_eq fft hfft hch fn hfn (downInc fn)
    (u32_sub win_s 1 - u32_add (rise_part fft win_s fn F).2 1)
    (u32_add (rise_part fft win_s fn F).2 1) (rise_part fft win_s fn F).1 (q1 hF)
    (by rw [q3]; exact hfF) (by rw [hlast, hlen, q2, hFl]; omega)
  unfold build_filter_chk
  rw [hL, hC, hU, hs, bind_some_eq, heights_get_chk fn hfn, bind_some_eq,
    center_get_chk fn hfn, bind_some_eq, lower_get_chk fn hfn, bind_some_eq,
    div_chk_some _ _ d2, bind_some_eq, hfb, hr, hp, bind_some_eq, bind_some_eq,
    upper_get_chk fn hfn, bind_some_eq, bind_some_eq, div_chk_some _ _ d3, bind_some_eq, hd, hn]
  unfold build_filter
  rfl

/-- The rows `0 .. m-1`, for `m` up to the row count and up to 40: the checked loop
"building each filter table" succeeds and computes what the unchecked loop computes. -/
theorem build_loop_chk_eq (fft : fvec_t) (hfft : fft.shaped) (hch : 0 < fft.channels)
    (fb : fvec_t) (hlen : fft.length = fb.length) (h1 : 1 ≤ fb.length)
    (h2 : fb.length < 4294967296) (m : Nat) (hm : m ≤ fb.channels) (hm40 : m ≤ 40) :
    forUpTo_chk (fun fn filters => build_filter_chk fft edges triangle_heights fb.length fn filters)
      m (fvec_zeros fb) =
    some (forUpTo (fun fn filters => build_filter fft fb.length fn filters) m (fvec_zeros fb)) :=
  (forUpTo_chk_sim
    (fun F : fvec_t => F.shaped ∧ F.length = fb.length ∧ F.channels = fb.channels)
    (fun fn filters => build_filter fft fb.length fn filters)
    (fun fn filters => build_filter_chk fft edges triangle_heights fb.length fn filters)
    m
    (fun i F hi hF =>
      ⟨build_filter_chk_eq fft hfft hch fb.length hlen h1 h2 i (by omega) F hF.1 hF.2.1
        (by rw [hF.2.2]; omega),
        (build_filter_frame fft fb.length i F).1 hF.1,
        (build_filter_frame fft fb.length i F).2.1.trans hF.2.1,
        (build_filter_frame fft fb.length i F).2.2.1.trans hF.2.2⟩)
    (fvec_zeros fb) ⟨fvec_zeros_shaped fb, rfl, rfl⟩ m (le_refl _)).1

theorem set_mel_coeffs_chk_unfold (bintofreq : ℚ → ℚ → ℚ → ℚ) (fb : fvec_t)
    (samplerate freq_min freq_max : ℚ) :
    aubio_filterbank_set_mel_coeffs_chk bintofreq fb samplerate freq_min freq_max =
      forUpTo_chk
        (fun fn filters => build_filter_chk (fft_freqs bintofreq samplerate fb.length) edges
          triangle_heights fb.length fn filters)
        fb.channels (fvec_zeros fb) := by
  unfold aubio_filterbank_set_mel_coeffs_chk
  rw [freqs_chk_eq, bind_some_eq, edges_chk_eq.1, bind_some_eq, triangle_heights_chk_eq,
    bind_some_eq, fft_freqs_chk_eq, bind_some_eq]

/-- C14: safe completion within capacity. For every row count `n <= 40` and every bin
count `numBins >= 2` (a `uint_t`), the run with checked indexing returns a result: every read
of the anchor, lower/center/upper, height and bin-frequency buffers and every write to the
`n x numBins` weight matrix is in range, every divisor is non-zero, and all loops end; the
result is the matrix of `aubio_filterbank_set_mel_coeffs`. -/
theorem C14_safe_within_capacity (bintofreq : ℚ → ℚ → ℚ → ℚ) (fb : fvec_t)
    (samplerate freq_min freq_max : ℚ)
    (hrows : fb.channels ≤ 40) (hbins : 2 ≤ fb.length) (hw : fb.length < 4294967296) :
    aubio_filterbank_set_mel_coeffs_chk bintofreq fb samplerate freq_min freq_max =
      some (aubio_filterbank_set_mel_coeffs bintofreq fb samplerate freq_min freq_max) := by
  rw [set_mel_coeffs_chk_unfold]
  exact build_loop_chk_eq (fft_freqs bintofreq samplerate fb.length)
    (fft_freqs_shaped bintofreq samplerate fb.length).1
    (by rw [(fft_freqs_shaped bintofreq samplerate fb.length).2.2]; decide) fb
    (fft_freqs_shaped bintofreq samplerate fb.length).2.1 (by omega) hw fb.channels (le_refl _)
    hrows

theorem C14_safe_within_capacity_witness :
    aubio_filterbank_set_mel_coeffs_chk aubio_bintofreq (new_fvec 64 13) 44100 0 0 =
      some (aubio_filterbank_set_mel_coeffs aubio_bintofreq (new_fvec 64 13) 44100 0 0) :=
  C14_safe_within_capacity aubio_bintofreq (new_fvec 64 13) 44100 0 0 (by decide) (by decide)
    (by decide)

/-! ## More than 40 rows -/

theorem bind_none_eq {α β : Type} (f : α → Option β) : (none : Option α).bind f = none := rfl

theorem forUpTo_chk_none {σ : Type} (body : Nat → σ → Option σ) (n : Nat) (s : σ)
    (h : forUpTo_chk body n s = none) : ∀ j, forUpTo_chk body (n + j) s = none := by
  intro j
  induction j with
  | zero => exact h
  | succ j ih => rw [← Nat.add_assoc, forUpTo_chk_succ, ih, bind_none_eq]

/-- For a filter index from 40 on, the scan for the first bin reads `lower_freqs` outside
its 40 entries in its first iteration. -/
theorem build_filter_chk_none (fft : fvec_t) (hfft : fft.shaped) (hch : 0 < fft.channels)
    (win_s : Nat) (hlen : fft.length = win_s) (h1 : 2 ≤ win_s) (h2 : win_s < 4294967296)
    (fn : Nat) (hfn : 40 ≤ fn) (F : fvec_t) :
    build_filter_chk fft edges triangle_heights win_s fn F = none := by
  have hL : edges.lower_freqs = lower_freqs := rfl
  have hrem : u32_sub win_s 1 - 0 = (win_s - 2) + 1 := by
    rw [u32_sub_one win_s (by omega) h2]
    omega
  unfold build_filter_chk
  rw [hL, hrem, skip_first_chk_succ, get_chk_some fft hfft 0 0 hch (by omega), bind_some_eq,
    lower_get_chk_none fn hfn, bind_none_eq, bind_none_eq]

/-- With more than 40 rows the checked run fails: row 40 needs `lower_freqs[40]`. -/
theorem set_mel_coeffs_chk_overflow (bintofreq : ℚ → ℚ → ℚ → ℚ) (fb : fvec_t)
    (samplerate freq_min freq_max : ℚ)
    (hrows : 40 < fb.channels) (hbins : 2 ≤ fb.length) (hw : fb.length < 4294967296) :
    aubio_filterbank_set_mel_coeffs_chk bintofreq fb samplerate freq_min freq_max = none := by
  obtain ⟨f1, f2, f3⟩ := fft_freqs_shaped bintofreq samplerate fb.length
  have hch : 0 < (fft_freqs bintofreq samplerate fb.length).channels := by rw [f3]; decide
  have h40 := build_loop_chk_eq (fft_freqs bintofreq samplerate fb.length) f1 hch fb f2
    (by omega) hw 40 (by omega) (le_refl _)
  have h41 : forUpTo_chk
      (fun fn filters => build_filter_chk (fft_freqs bintofreq samplerate fb.length) edges
        triangle_heights fb.length fn filters) (40 + 1) (fvec_zeros fb) = none := by
    rw [forUpTo_chk_succ, h40, bind_some_eq]
    exact build_filter_chk_none (fft_freqs bintofreq samplerate fb.length) f1 hch fb.length f2
      hbins hw 40 (le_refl _) _
  have hj := forUpTo_chk_none _ _ _ h41 (fb.channels - 41)
  have e : 40 + 1 + (fb.channels - 41) = fb.channels := by omega
  rw [e] at hj
  rw [set_mel_coeffs_chk_unfold]
  exact hj

/-- C15 (no out-of-range access for any row count, `n > 40` included), the code on a
table of 41 rows and 2 bins at 44100 Hz: the checked run fails, because building row 40 reads
`lower_freqs[40]` while the buffer has 40 entries. -/
theorem C15_out_of_range_beyond_40_rows :
    aubio_filterbank_set_mel_coeffs_chk aubio_bintofreq (new_fvec 2 41) 44100 0 0 = none ∧
    lower_freqs.get_chk 0 40 = none ∧ lower_freqs.length = 40 :=
  ⟨set_mel_coeffs_chk_overflow aubio_bintofreq (new_fvec 2 41) 44100 0 0 (by decide) (by decide)
    (by decide), lower_get_chk_none 40 (le_refl _), lower_freqs_shaped.2.1⟩

/-! ## Fewer than 2 bins -/

/-- C16, as it is worded for `numBins = 1`, fails: `win_s - 1` is 0, the condition
`bin < win_s - 1` is false at once, and the scan ends with `bin = 0` without reading any bin
frequency. -/
theorem C16_one_bin_counterexample :
    u32_sub 1 1 = 0 ∧
    skip_first_chk (fft_freqs aubio_bintofreq 44100 1) lower_freqs 0 (u32_sub 1 1 - 0) 0 =
      some 0 := by
  have h : u32_sub 1 1 - 0 = 0 := by decide
  rw [h]
  exact ⟨by decide, rfl⟩

/-- C16, amended: for `numBins = 0`, `win_s - 1` is `2^32 - 1` in `uint_t` arithmetic and
the first iteration of the scan reads `fft_freqs[0]` outside the empty table; for
`numBins = 1`, `win_s - 1` is 0 and the scan ends at once with `bin = 0`, without any read. -/
theorem C16_degenerate_bin_count (bintofreq : ℚ → ℚ → ℚ → ℚ) (samplerate : ℚ) (fn : Nat) :
    (u32_sub 0 1 = 4294967295 ∧
      (fft_freqs bintofreq samplerate 0).get_chk 0 0 = none ∧
      skip_first_chk (fft_freqs bintofreq samplerate 0) lower_freqs fn (u32_sub 0 1 - 0) 0 =
        none) ∧
    (u32_sub 1 1 = 0 ∧
      skip_first_chk (fft_freqs bintofreq samplerate 1) lower_freqs fn (u32_sub 1 1 - 0) 0 =
        some 0) := by
  obtain ⟨f1, f2, f3⟩ := fft_freqs_shaped bintofreq samplerate 0
  have hnone : (fft_freqs bintofreq samplerate 0).get_chk 0 0 = none :=
    get_chk_none _ f1 0 0 (by rw [f3]; decide) (by rw [f2])
  have h0 : u32_sub 0 1 - 0 = 4294967294 + 1 := by decide
  have h1 : u32_sub 1 1 - 0 = 0 := by decide
  refine ⟨⟨by decide, hnone, ?_⟩, by decide, ?_⟩
  · rw [h0, skip_first_chk_succ, hnone, bind_none_eq]
  · rw [h1]
    rfl

end Aubio
